import Mathlib

/-!
# Zettelkasten block and address-script parser

A shallow embedding of `bchain/coins/zettelkasten/zettelparser.go` and the
properties of its three entry points: `ParseBlock`, `outputScriptToAddresses`
and `addressToOutputScript`.

Code that the parser calls but that lives outside the file (the transaction
decoder, the transaction converter, the standard resolver, the address codec)
is carried as fields of `Lib` and `BitcoinParser`, so every theorem on the
parser holds for any implementation of them. The parts of the Go standard
library and of `txscript` that decide the claims (`bytes.Reader`,
`binary.Read`, `time.Unix`, `ScriptBuilder`) are embedded as definitions.

One instance of the outside code is given as well (Base58Check over SHA-256,
the Bitcoin wire encoding of transactions); on it the statements are
evaluated on the fixtures of `zettelparser_test.go`.
-/

namespace Zettelkasten

/-! ## Errors -/

/-- Go `error` values that can leave the parser. -/
inductive Error where
  /-- Value `io.EOF`: nothing was left to read. -/
  | EOF
  /-- Value `io.ErrUnexpectedEOF`: the input ended inside a fixed-size field. -/
  | ErrUnexpectedEOF
  /-- Error of `bytes.Reader.Seek` for a negative target position. -/
  | negativePosition
  /-- Error of `btcutil.NewAddressPubKeyHash`: the hash is not 20 bytes long. -/
  | pkHashLength
  /-- Error `txscript.ErrScriptNotCanonical` recorded by the script builder. -/
  | scriptNotCanonical
  /-- Any other error of an external package, named by its message. -/
  | other (msg : String)
  deriving DecidableEq, Repr

deriving instance DecidableEq for Except

/-- An end-of-input error: `io.EOF` or `io.ErrUnexpectedEOF`. -/
def Error.isTruncated : Error → Bool
  | .EOF => true
  | .ErrUnexpectedEOF => true
  | _ => false

/-! ## Go slices and little-endian integers -/

/-- Go slice expression `s[lo:hi]`. -/
def slice (s : List UInt8) (lo hi : Nat) : List UInt8 :=
  (s.take hi).drop lo

/-- Value of a byte string read as a little-endian unsigned integer
(`binary.LittleEndian.Uint32`, `Uint64`). -/
def leUint : List UInt8 → Nat
  | [] => 0
  | b :: bs => b.toNat + 256 * leUint bs

/-- Go conversion `int32(x)` of a `uint32`. -/
def toInt32 (x : Nat) : Int :=
  if x % 2 ^ 32 < 2 ^ 31 then (x % 2 ^ 32 : Nat) else (x % 2 ^ 32 : Nat) - 2 ^ 32

/-- Go conversion `int64(x)` of a `uint64`. -/
def toInt64 (x : Nat) : Int :=
  if x % 2 ^ 64 < 2 ^ 63 then (x % 2 ^ 64 : Nat) else (x % 2 ^ 64 : Nat) - 2 ^ 64

/-- Result of an `int64` addition or subtraction: the exact value wrapped into
`[-2^63, 2^63)`. -/
def wrapInt64 (x : Int) : Int :=
  (x + 2 ^ 63) % 2 ^ 64 - 2 ^ 63

/-! ## `bytes.Reader`, `io.ReadFull`, `binary.Read` -/

/-- Go `bytes.Reader`: the byte slice `s` and the read position `i`. The
position is an `int64` that `Seek` keeps non-negative. -/
structure Reader where
  s : List UInt8
  i : Nat
  deriving DecidableEq, Repr

/-- Go `bytes.NewReader(b)`. -/
def NewReader (b : List UInt8) : Reader :=
  { s := b, i := 0 }

/-- Bytes a forward read can still return: `r.s[r.i:]`, empty when the position
is at or past the end. -/
def Reader.remaining (r : Reader) : List UInt8 :=
  r.s.drop r.i

/-- Go `io.ReadFull(r, buf)` for `len(buf) = n` on a `bytes.Reader`. With nothing
left it fails with `io.EOF`; with fewer than `n` bytes left the first `Read`
returns them and the second returns `io.EOF`, which `ReadFull` turns into
`io.ErrUnexpectedEOF`; otherwise it returns the next `n` bytes. -/
def ReadFull (r : Reader) (n : Nat) : Except Error (List UInt8 × Reader) :=
  if n = 0 then .ok ([], r)
  else if r.remaining.length = 0 then .error .EOF
  else if r.remaining.length < n then .error .ErrUnexpectedEOF
  else .ok (r.remaining.take n, { r with i := r.i + n })

/-- Whence values of `io.Seeker`. -/
inductive Whence where
  | SeekStart
  | SeekCurrent
  | SeekEnd
  deriving DecidableEq, Repr

/-- Go `(*bytes.Reader).Seek(offset, whence)`: only a negative target is an
error; a target past the end of the slice is accepted. -/
def Reader.Seek (r : Reader) (offset : Int) (whence : Whence) : Except Error (Int × Reader) :=
  let abs : Int :=
    match whence with
    | .SeekStart => offset
    | .SeekCurrent => (r.i : Int) + offset
    | .SeekEnd => (r.s.length : Int) + offset
  if abs < 0 then .error .negativePosition
  else .ok (abs, { r with i := abs.toNat })

/-- Go `binary.Read(r, binary.LittleEndian, &x)` for `x` of type `uint32` or
`uint64` (`n` = 4 or 8 bytes): the value read, as an unsigned integer. -/
def binaryReadUint (r : Reader) (n : Nat) : Except Error (Nat × Reader) :=
  match ReadFull r n with
  | .error err => .error err
  | .ok (bs, r1) => .ok (leUint bs, r1)

/-- Go `binary.Read(r, binary.LittleEndian, &x)` for `x` of type `int32`. -/
def binaryReadInt32 (r : Reader) : Except Error (Int × Reader) :=
  match ReadFull r 4 with
  | .error err => .error err
  | .ok (bs, r1) => .ok (toInt32 (leUint bs), r1)

/-- Go `binary.Read(r, binary.LittleEndian, dst[:])` for a byte slice of
length `n`: the bytes are copied unchanged. -/
def binaryReadBytes (r : Reader) (n : Nat) : Except Error (List UInt8 × Reader) :=
  ReadFull r n

/-! ## `time.Time` -/

/-- Seconds from year 1 to the Unix epoch, Go `unixToInternal`. -/
def unixToInternal : Int := 62135596800

/-- Go `time.Time` without its location: the wall word and the `int64` seconds
since year 1. -/
structure Time where
  wall : Nat
  ext : Int
  deriving DecidableEq, Repr

/-- Go `time.Unix(sec, 0)`: no monotonic reading, `ext = sec + unixToInternal`
in `int64` arithmetic. -/
def timeUnix (sec : Int) : Time :=
  { wall := 0, ext := wrapInt64 (sec + unixToInternal) }

/-- Go `(Time).Unix()` of a time without monotonic reading:
`ext + internalToUnix` in `int64` arithmetic. -/
def Time.Unix (t : Time) : Int :=
  wrapInt64 (t.ext - unixToInternal)

/-! ## Block header and block -/

/-- Go `wire.BlockHeader` as `ParseBlock` fills it. -/
structure BlockHeader where
  Version : Int
  PrevBlock : List UInt8
  MerkleRoot : List UInt8
  Timestamp : Time
  Bits : Nat
  Nonce : Nat
  deriving DecidableEq, Repr

/-- Go `bchain.Block` as `ParseBlock` fills it: `BlockHeader.Size`,
`BlockHeader.Time` and `Txs`. -/
structure Block (Tx : Type) where
  Size : Nat
  Time : Int
  Txs : List Tx
  deriving DecidableEq, Repr

/-- Go `wire.MessageEncoding`. -/
inductive MessageEncoding where
  | BaseEncoding
  | WitnessEncoding
  deriving DecidableEq, Repr

/-! ## Network parameters and addresses -/

/-- Go `chaincfg.Params`, the fields the parser and the address codec use. -/
structure Params where
  Name : String
  Net : Nat
  PubKeyHashAddrID : List UInt8
  ScriptHashAddrID : List UInt8
  deriving DecidableEq, Repr

/-- Go `[20]byte`, the type of a RIPEMD-160 hash inside an address. -/
abbrev Hash160 := { l : List UInt8 // l.length = 20 }

/-- Go `[32]byte`, the type of a witness script hash. -/
abbrev Hash256 := { l : List UInt8 // l.length = 32 }

/-- Serialized secp256k1 public key: 33 bytes compressed, 65 bytes
uncompressed or hybrid. -/
abbrev SerializedPubKey := { l : List UInt8 // l.length = 33 ∨ l.length = 65 }

/-- Go `btcutil.AddressPubKeyHash`. -/
structure AddressPubKeyHash where
  hash : Hash160
  netID : List UInt8
  deriving DecidableEq, Repr

/-- Go `btcutil.AddressScriptHash`. -/
structure AddressScriptHash where
  hash : Hash160
  netID : List UInt8
  deriving DecidableEq, Repr

/-- The address types `btcutil.DecodeAddress` returns. Each carries its payload
in the fixed-size form the Go type has. -/
inductive Address where
  /-- Go `*AddressPubKeyHash`. -/
  | PubKeyHash (a : AddressPubKeyHash)
  /-- Go `*AddressScriptHash`. -/
  | ScriptHash (a : AddressScriptHash)
  /-- Go `*AddressPubKey`, by the serialization of its key in its format. -/
  | PubKey (serialized : SerializedPubKey) (pubKeyHashID : List UInt8)
  /-- Go `*AddressWitnessPubKeyHash`. -/
  | WitnessPubKeyHash (hrp : String) (witnessVersion : UInt8) (witnessProgram : Hash160)
  /-- Go `*AddressWitnessScriptHash`. -/
  | WitnessScriptHash (hrp : String) (witnessVersion : UInt8) (witnessProgram : Hash256)
  deriving DecidableEq, Repr

/-- Go `(Address).ScriptAddress()`: the raw bytes to put into a script. -/
def Address.ScriptAddress : Address → List UInt8
  | .PubKeyHash a => a.hash.val
  | .ScriptHash a => a.hash.val
  | .PubKey serialized _ => serialized.val
  | .WitnessPubKeyHash _ _ witnessProgram => witnessProgram.val
  | .WitnessScriptHash _ _ witnessProgram => witnessProgram.val

/-- Result triple `([]string, bool, error)` of a script-to-addresses resolver. -/
abbrev AddrResult := List String × Bool × Option Error

/-- Go `btc.OutputScriptToAddressesFunc`. -/
abbrev OutputScriptToAddressesFunc := List UInt8 → AddrResult

/-- Packages the parser calls whose code is outside the parser file:
`utils.DecodeTransactions` reading from an `io.Reader` (a function of the bytes
that are left to read), `base58.CheckEncode` behind
`(*AddressPubKeyHash).EncodeAddress`, and `btcutil.DecodeAddress`. -/
structure Lib (MsgTx : Type) where
  DecodeTransactions : List UInt8 → Nat → MessageEncoding → Except Error (List MsgTx)
  CheckEncode : List UInt8 → List UInt8 → String
  DecodeAddress : String → Params → Except Error Address

/-- Go `btc.BitcoinParser`, the value `btc.NewBitcoinParser(params, c)` returns:
its network parameters, its resolver function field and its transaction
converter `TxFromMsgTx`. -/
structure BitcoinParser (MsgTx Tx : Type) where
  Params : Params
  OutputScriptToAddressesFunc : OutputScriptToAddressesFunc
  TxFromMsgTx : MsgTx → Bool → Tx

/-- Go `ZettelkastenParser`: the embedded Bitcoin parser and the saved standard
resolver. -/
structure ZettelkastenParser (MsgTx Tx : Type) where
  BitcoinParser : BitcoinParser MsgTx Tx
  BitcoinOutputScriptToAddressesFunc : OutputScriptToAddressesFunc

/-- Promoted field `p.Params` of the embedded parser. -/
def ZettelkastenParser.Params {MsgTx Tx : Type} (p : ZettelkastenParser MsgTx Tx) : Params :=
  p.BitcoinParser.Params

/-- Promoted method `p.TxFromMsgTx` of the embedded parser. -/
def ZettelkastenParser.TxFromMsgTx {MsgTx Tx : Type} (p : ZettelkastenParser MsgTx Tx) :
    MsgTx → Bool → Tx :=
  p.BitcoinParser.TxFromMsgTx

/-! ## `ParseBlock` -/

/-- The header part of `ParseBlock`: the six `binary.Read` calls and the two
`Seek` calls, in source order. Returns the header and the reader as they are
when `utils.DecodeTransactions` is called. -/
def readHeader (b : List UInt8) : Except Error (BlockHeader × Reader) :=
  let r := NewReader b
  match binaryReadInt32 r with
  | .error err => .error err
  | .ok (version, r) =>
  match binaryReadBytes r 32 with
  | .error err => .error err
  | .ok (prevBlock, r) =>
  match binaryReadBytes r 32 with
  | .error err => .error err
  | .ok (merkleRoot, r) =>
  match binaryReadUint r 8 with
  | .error err => .error err
  | .ok (t, r) =>
  let timestamp := timeUnix (toInt64 t)
  match binaryReadUint r 4 with
  | .error err => .error err
  | .ok (bits, r) =>
  match binaryReadUint r 4 with
  | .error err => .error err
  | .ok (nonce, r) =>
  -- hashWholeBlock
  match r.Seek 32 .SeekCurrent with
  | .error err => .error err
  | .ok (_, r) =>
  -- MinerSignature
  match r.Seek 65 .SeekCurrent with
  | .error err => .error err
  | .ok (_, r) =>
  .ok ({ Version := version, PrevBlock := prevBlock, MerkleRoot := merkleRoot,
         Timestamp := timestamp, Bits := bits, Nonce := nonce }, r)

/-- The header `readHeader` builds from the first 84 bytes of `b`. -/
def headerOf (b : List UInt8) : BlockHeader :=
  { Version := toInt32 (leUint (slice b 0 4)),
    PrevBlock := slice b 4 36,
    MerkleRoot := slice b 36 68,
    Timestamp := timeUnix (toInt64 (leUint (slice b 68 76))),
    Bits := leUint (slice b 76 80),
    Nonce := leUint (slice b 80 84) }

/-- The conversion loop of `ParseBlock`:
`for ti, t := range w.Transactions { txs[ti] = p.TxFromMsgTx(t, false) }`,
started at index `ti` on the transactions still to visit. -/
def convertLoop {MsgTx Tx : Type} (conv : MsgTx → Bool → Tx) :
    Nat → List MsgTx → List Tx → List Tx
  | _, [], txs => txs
  | ti, t :: rest, txs => convertLoop conv (ti + 1) rest (txs.set ti (conv t false))

/-- Go `(*ZettelkastenParser).ParseBlock(b)`. -/
def ParseBlock {MsgTx Tx : Type} [Inhabited Tx] (lib : Lib MsgTx)
    (p : ZettelkastenParser MsgTx Tx) (b : List UInt8) : Except Error (Block Tx) :=
  match readHeader b with
  | .error err => .error err
  | .ok (h, r) =>
  match lib.DecodeTransactions r.remaining 0 .WitnessEncoding with
  | .error err => .error err
  | .ok transactions =>
  let txs := convertLoop p.TxFromMsgTx 0 transactions (List.replicate transactions.length default)
  .ok { Size := b.length, Time := h.Timestamp.Unix, Txs := txs }

/-! ## Script builder -/

/-- Opcode `txscript.OP_0`. -/
def OP_0 : UInt8 := 0x00
/-- Opcode `txscript.OP_DATA_1`. -/
def OP_DATA_1 : UInt8 := 0x01
/-- Opcode `txscript.OP_PUSHDATA1`. -/
def OP_PUSHDATA1 : UInt8 := 0x4c
/-- Opcode `txscript.OP_PUSHDATA2`. -/
def OP_PUSHDATA2 : UInt8 := 0x4d
/-- Opcode `txscript.OP_PUSHDATA4`. -/
def OP_PUSHDATA4 : UInt8 := 0x4e
/-- Opcode `txscript.OP_1NEGATE`. -/
def OP_1NEGATE : UInt8 := 0x4f
/-- Opcode `txscript.OP_1`. -/
def OP_1 : UInt8 := 0x51
/-- Opcode `txscript.OP_CHECKSIG`. -/
def OP_CHECKSIG : UInt8 := 0xac
/-- Constant `txscript.MaxScriptSize`. -/
def MaxScriptSize : Nat := 10000
/-- Constant `txscript.MaxScriptElementSize`. -/
def MaxScriptElementSize : Nat := 520

/-- Go `txscript.ScriptBuilder`: the script so far and the first error. -/
structure ScriptBuilder where
  script : List UInt8
  err : Option Error
  deriving DecidableEq, Repr

/-- Go `txscript.NewScriptBuilder()`. -/
def NewScriptBuilder : ScriptBuilder :=
  { script := [], err := none }

/-- Little-endian bytes of `x`, `n` of them (`binary.LittleEndian.PutUint16`,
`PutUint32`). -/
def putUintLE : Nat → Nat → List UInt8
  | 0, _ => []
  | n + 1, x => UInt8.ofNat (x % 256) :: putUintLE n (x / 256)

/-- Go `canonicalDataSize(data)`: the size of the canonical push of `data`. -/
def canonicalDataSize (data : List UInt8) : Nat :=
  let dataLen := data.length
  if dataLen = 0 then 1
  else if dataLen = 1 ∧ data.head! ≤ 16 then 1
  else if dataLen = 1 ∧ data.head! = 0x81 then 1
  else if dataLen < OP_PUSHDATA1.toNat then 1 + dataLen
  else if dataLen ≤ 0xff then 2 + dataLen
  else if dataLen ≤ 0xffff then 3 + dataLen
  else 5 + dataLen

/-- Go `(*ScriptBuilder).addData(data)`: a small-integer opcode for a one-byte
number, else the shortest push opcode followed by the data. -/
def ScriptBuilder.addData (b : ScriptBuilder) (data : List UInt8) : ScriptBuilder :=
  let dataLen := data.length
  if dataLen = 0 ∨ (dataLen = 1 ∧ data.head! = 0) then
    { b with script := b.script ++ [OP_0] }
  else if dataLen = 1 ∧ data.head! ≤ 16 then
    { b with script := b.script ++ [(OP_1 - 1) + data.head!] }
  else if dataLen = 1 ∧ data.head! = 0x81 then
    { b with script := b.script ++ [OP_1NEGATE] }
  else
    let b1 : ScriptBuilder :=
      if dataLen < OP_PUSHDATA1.toNat then
        { b with script := b.script ++ [UInt8.ofNat ((OP_DATA_1.toNat - 1) + dataLen)] }
      else if dataLen ≤ 0xff then
        { b with script := b.script ++ [OP_PUSHDATA1, UInt8.ofNat dataLen] }
      else if dataLen ≤ 0xffff then
        { b with script := b.script ++ [OP_PUSHDATA2] ++ putUintLE 2 dataLen }
      else
        { b with script := b.script ++ [OP_PUSHDATA4] ++ putUintLE 4 dataLen }
    { b1 with script := b1.script ++ data }

/-- Go `(*ScriptBuilder).AddData(data)`. -/
def ScriptBuilder.AddData (b : ScriptBuilder) (data : List UInt8) : ScriptBuilder :=
  if b.err.isSome then b
  else if b.script.length + canonicalDataSize data > MaxScriptSize then
    { b with err := some .scriptNotCanonical }
  else if data.length > MaxScriptElementSize then
    { b with err := some .scriptNotCanonical }
  else b.addData data

/-- Go `(*ScriptBuilder).AddOp(opcode)`. -/
def ScriptBuilder.AddOp (b : ScriptBuilder) (opcode : UInt8) : ScriptBuilder :=
  if b.err.isSome then b
  else if b.script.length + 1 > MaxScriptSize then
    { b with err := some .scriptNotCanonical }
  else { b with script := b.script ++ [opcode] }

/-- Go `(*ScriptBuilder).Script()`. -/
def ScriptBuilder.Script (b : ScriptBuilder) : Except Error (List UInt8) :=
  match b.err with
  | some err => .error err
  | none => .ok b.script

/-! ## Address and script codec -/

/-- Go `btcutil.NewAddressPubKeyHash(pkHash, net)`: fails unless `pkHash` has
20 bytes, else the address of `pkHash` under `net.PubKeyHashAddrID`. -/
def NewAddressPubKeyHash (pkHash : List UInt8) (net : Params) :
    Except Error AddressPubKeyHash :=
  if h : pkHash.length = 20 then .ok { hash := ⟨pkHash, h⟩, netID := net.PubKeyHashAddrID }
  else .error .pkHashLength

/-- Go `(*AddressPubKeyHash).EncodeAddress()`:
`base58.CheckEncode(a.hash[:], a.netID)`. -/
def AddressPubKeyHash.EncodeAddress {MsgTx : Type} (lib : Lib MsgTx)
    (a : AddressPubKeyHash) : String :=
  lib.CheckEncode a.hash.val a.netID

/-- Go `(*AddressScriptHash).EncodeAddress()`:
`base58.CheckEncode(a.hash[:], a.netID)`. -/
def AddressScriptHash.EncodeAddress {MsgTx : Type} (lib : Lib MsgTx)
    (a : AddressScriptHash) : String :=
  lib.CheckEncode a.hash.val a.netID

/-- Go `(*ZettelkastenParser).outputScriptToAddresses(script)`. -/
def ZettelkastenParser.outputScriptToAddresses {MsgTx Tx : Type} (lib : Lib MsgTx)
    (p : ZettelkastenParser MsgTx Tx) (script : List UInt8) : AddrResult :=
  if script.length = 22 then
    match NewAddressPubKeyHash (slice script 1 (script.length - 1)) p.Params with
    | .error err => ([], false, some err)
    | .ok address => ([address.EncodeAddress lib], true, none)
  else
    -- TODO: multisign address
    p.BitcoinOutputScriptToAddressesFunc script

/-- Go `(*ZettelkastenParser).addressToOutputScript(address)`. -/
def ZettelkastenParser.addressToOutputScript {MsgTx Tx : Type} (lib : Lib MsgTx)
    (p : ZettelkastenParser MsgTx Tx) (address : String) : Except Error (List UInt8) :=
  match lib.DecodeAddress address p.Params with
  | .error err => .error err
  | .ok da =>
  match ((NewScriptBuilder.AddData da.ScriptAddress).AddOp OP_CHECKSIG).Script with
  | .error err => .error err
  | .ok script => .ok script

/-- Go `(*ZettelkastenParser).GetAddrDescFromAddress(address)`. -/
def ZettelkastenParser.GetAddrDescFromAddress {MsgTx Tx : Type} (lib : Lib MsgTx)
    (p : ZettelkastenParser MsgTx Tx) (address : String) : Except Error (List UInt8) :=
  p.addressToOutputScript lib address

/-- Go `NewZettelkastenParser(params, c)`, given the parser `bp` that
`btc.NewBitcoinParser(params, c)` returns: save its resolver, then install
the method `outputScriptToAddresses` in its place. The method reads
`p.Params` and `p.BitcoinOutputScriptToAddressesFunc`, which the second
assignment leaves as they are. -/
def NewZettelkastenParser {MsgTx Tx : Type} (lib : Lib MsgTx) (bp : BitcoinParser MsgTx Tx) :
    ZettelkastenParser MsgTx Tx :=
  let p : ZettelkastenParser MsgTx Tx :=
    { BitcoinParser := bp,
      BitcoinOutputScriptToAddressesFunc := bp.OutputScriptToAddressesFunc }
  { p with BitcoinParser :=
      { p.BitcoinParser with OutputScriptToAddressesFunc := p.outputScriptToAddresses lib } }


/-! ## Instances of the external packages

The theorems below hold for every `Lib` and every `BitcoinParser`. The
definitions of this section give one instance of each, used where a statement
is evaluated on the fixtures of `zettelparser_test.go`: Base58Check over
SHA-256 for the address codec, the Bitcoin wire encoding for the transaction
list. -/

/-- Value of a hexadecimal digit, 0 for any other character. -/
def hexDigit (c : Char) : Nat :=
  if 48 ≤ c.toNat ∧ c.toNat ≤ 57 then c.toNat - 48
  else if 97 ≤ c.toNat ∧ c.toNat ≤ 102 then c.toNat - 87
  else if 65 ≤ c.toNat ∧ c.toNat ≤ 70 then c.toNat - 55
  else 0

/-- Bytes of the pairs of hexadecimal digits. -/
def hexPairs : List Char → List UInt8
  | a :: b :: rest => UInt8.ofNat (hexDigit a * 16 + hexDigit b) :: hexPairs rest
  | _ => []

/-- Go `hex.DecodeString(s)` on a string of hexadecimal digits, as the tests
use it to write scripts. -/
def hexDecode (s : String) : List UInt8 :=
  hexPairs s.toList

namespace sha256

/-- Primality of a number below 361 by trial division by the primes below 19. -/
def isPrime (n : Nat) : Bool :=
  decide (2 ≤ n) && [2, 3, 5, 7, 11, 13, 17].all (fun d => d == n || n % d != 0)

/-- The first 64 primes, 2 to 311. -/
def primes : List Nat :=
  (List.range 312).filter isPrime

/-- Integer `k`-th root of `n` built bit by bit, from bit `b - 1` down, on top
of the bits already in `r`. -/
def rootBits (k n : Nat) : Nat → Nat → Nat
  | 0, r => r
  | b + 1, r => if (r + 2 ^ b) ^ k ≤ n then rootBits k n b (r + 2 ^ b) else rootBits k n b r

/-- The first 32 bits of the fractional part of the `k`-th root of `p`. -/
def fracRoot (k p : Nat) : Nat :=
  rootBits k (p * 2 ^ (32 * k)) 36 0 % 2 ^ 32

/-- Round constants of SHA-256 (FIPS 180-4, section 4.2.2): the fractional
parts of the cube roots of the first 64 primes. -/
def K : List Nat :=
  primes.map (fracRoot 3)

/-- Reduction to a 32-bit word. -/
def w32 (x : Nat) : Nat := x % 4294967296

/-- Rotation of a 32-bit word to the right by `n` bits. -/
def rotr (x n : Nat) : Nat := w32 ((x >>> n) ||| (x <<< (32 - n)))

/-- Function Σ0 of SHA-256. -/
def bsig0 (x : Nat) : Nat := rotr x 2 ^^^ rotr x 13 ^^^ rotr x 22
/-- Function Σ1 of SHA-256. -/
def bsig1 (x : Nat) : Nat := rotr x 6 ^^^ rotr x 11 ^^^ rotr x 25
/-- Function σ0 of SHA-256. -/
def ssig0 (x : Nat) : Nat := rotr x 7 ^^^ rotr x 18 ^^^ (x >>> 3)
/-- Function σ1 of SHA-256. -/
def ssig1 (x : Nat) : Nat := rotr x 17 ^^^ rotr x 19 ^^^ (x >>> 10)
/-- Function Ch of SHA-256, for 32-bit words. -/
def ch (x y z : Nat) : Nat := (x &&& y) ^^^ ((4294967295 - x) &&& z)
/-- Function Maj of SHA-256. -/
def maj (x y z : Nat) : Nat := (x &&& y) ^^^ (x &&& z) ^^^ (y &&& z)

/-- Big-endian bytes of `x`, `n` of them. -/
def putUintBE : Nat → Nat → List Nat
  | 0, _ => []
  | n + 1, x => (x >>> (8 * n)) % 256 :: putUintBE n x

/-- The padded message: a one bit, zero bits up to 56 modulo 64 bytes, and the
bit length as a 64-bit big-endian integer. -/
def pad (msg : List Nat) : List Nat :=
  msg ++ [0x80] ++ List.replicate ((119 - msg.length % 64) % 64) 0 ++ putUintBE 8 (8 * msg.length)

/-- Value of a byte string read as a big-endian unsigned integer. -/
def beUint (bs : List Nat) : Nat :=
  bs.foldl (fun acc b => acc * 256 + b) 0

/-- The first `n` 32-bit big-endian words of a byte string. -/
def words : Nat → List Nat → List Nat
  | 0, _ => []
  | n + 1, bs => beUint (bs.take 4) :: words n (bs.drop 4)

/-- Message schedule, newest word first: `n` more words after those in `ws`. -/
def extend : Nat → List Nat → List Nat
  | 0, ws => ws
  | n + 1, ws =>
    extend n (w32 (ssig1 (ws.getD 1 0) + ws.getD 6 0 + ssig0 (ws.getD 14 0) + ws.getD 15 0) :: ws)

/-- The eight working variables. -/
structure State where
  a : Nat
  b : Nat
  c : Nat
  d : Nat
  e : Nat
  f : Nat
  g : Nat
  h : Nat

/-- One round of the compression function. -/
def round (s : State) (k w : Nat) : State :=
  let t1 := s.h + bsig1 s.e + ch s.e s.f s.g + k + w
  let t2 := bsig0 s.a + maj s.a s.b s.c
  { a := w32 (t1 + t2), b := s.a, c := s.b, d := s.c, e := w32 (s.d + t1), f := s.e, g := s.f,
    h := s.g }

/-- The rounds over the constants and the schedule. -/
def rounds : State → List Nat → List Nat → State
  | s, k :: ks, w :: ws => rounds (round s k w) ks ws
  | s, _, _ => s

/-- Compression of one 64-byte block into the hash state. -/
def compress (h : State) (block : List Nat) : State :=
  let s := rounds h K (extend 48 (words 16 block).reverse).reverse
  { a := w32 (h.a + s.a), b := w32 (h.b + s.b), c := w32 (h.c + s.c), d := w32 (h.d + s.d),
    e := w32 (h.e + s.e), f := w32 (h.f + s.f), g := w32 (h.g + s.g), h := w32 (h.h + s.h) }

/-- Compression of `n` consecutive blocks. -/
def blocks : Nat → State → List Nat → State
  | 0, h, _ => h
  | n + 1, h, bs => blocks n (compress h (bs.take 64)) (bs.drop 64)

/-- Initial hash value of SHA-256 (FIPS 180-4, section 5.3.3): the fractional
parts of the square roots of the first 8 primes. -/
def init : State :=
  match (primes.take 8).map (fracRoot 2) with
  | [a, b, c, d, e, f, g, h] => { a := a, b := b, c := c, d := d, e := e, f := f, g := g, h := h }
  | _ => { a := 0, b := 0, c := 0, d := 0, e := 0, f := 0, g := 0, h := 0 }

/-- Go `sha256.Sum256(data)`. -/
def Sum256 (data : List UInt8) : List UInt8 :=
  let p := pad (data.map UInt8.toNat)
  let s := blocks (p.length / 64) init p
  (([s.a, s.b, s.c, s.d, s.e, s.f, s.g, s.h].map (putUintBE 4)).flatten).map UInt8.ofNat

end sha256

namespace base58

/-- The Bitcoin base-58 alphabet. -/
def alphabet : List Char :=
  "123456789ABCDEFGHJKLMNPQRSTUVWXYZabcdefghijkmnopqrstuvwxyz".toList

/-- Digit character of the alphabet, `alphabet[0]`. -/
def alphabetIdx0 : Char := '1'

/-- Go `new(big.Int).SetBytes(b)`: the big-endian value of `b`. -/
def SetBytes (b : List UInt8) : Nat :=
  b.foldl (fun acc x => acc * 256 + x.toNat) 0

/-- The division loop of `Encode`: digits of `x`, least significant first. The
loop ends when `x` is zero; `fuel` bounds its length. -/
def encodeLoop : Nat → Nat → List Char → List Char
  | 0, _, answer => answer
  | fuel + 1, x, answer =>
    if x > 0 then encodeLoop fuel (x / 58) (answer ++ [alphabet.getD (x % 58) alphabetIdx0])
    else answer

/-- Go `base58.Encode(b)`. -/
def Encode (b : List UInt8) : String :=
  let answer := encodeLoop (2 * b.length) (SetBytes b) []
  let zeros := (b.takeWhile (fun x => x == 0)).map (fun _ => alphabetIdx0)
  String.mk (answer ++ zeros).reverse

/-- Table `b58`: the digit of a character, `none` (255 in Go) outside the
alphabet. -/
def b58 (c : Char) : Option Nat :=
  let i := alphabet.indexOf c
  if i < 58 then some i else none

/-- The accumulation loop of `Decode` over the characters from the last to
the first, `none` at a character outside the alphabet. -/
def decodeLoop : List Char → Nat → Nat → Option Nat
  | [], answer, _ => some answer
  | c :: cs, answer, j =>
    match b58 c with
    | none => none
    | some tmp => decodeLoop cs (answer + j * tmp) (j * 58)

/-- Go `(*big.Int).Bytes()`: big-endian bytes without leading zeros; `fuel`
bounds their number. -/
def Bytes : Nat → Nat → List UInt8 → List UInt8
  | 0, _, acc => acc
  | fuel + 1, x, acc => if x > 0 then Bytes fuel (x / 256) (UInt8.ofNat (x % 256) :: acc) else acc

/-- Go `base58.Decode(b)`. -/
def Decode (b : String) : List UInt8 :=
  match decodeLoop b.toList.reverse 0 1 with
  | none => []
  | some answer =>
    let tmpval := Bytes b.length answer []
    let numZeros := (b.toList.takeWhile (fun c => c == alphabetIdx0)).length
    List.replicate numZeros 0 ++ tmpval

/-- Go `checksum(input)`: the first four bytes of the double SHA-256. -/
def checksum (input : List UInt8) : List UInt8 :=
  (sha256.Sum256 (sha256.Sum256 input)).take 4

/-- Go `base58.CheckEncode(input, version)`. -/
def CheckEncode (input : List UInt8) (version : List UInt8) : String :=
  let b := version ++ input
  Encode (b ++ checksum b)

end base58


namespace base58

/-- Go `base58.CheckDecode(input, versionLen)`: the payload and the version
bytes, after the checksum has been verified. -/
def CheckDecode (input : String) (versionLen : Nat) : Except Error (List UInt8 × List UInt8) :=
  let decoded := Decode input
  if decoded.length < 4 + versionLen then .error (.other "invalid format")
  else
    let version := slice decoded 0 versionLen
    let cksum := slice decoded (decoded.length - 4) decoded.length
    if checksum (slice decoded 0 (decoded.length - 4)) ≠ cksum then .error (.other "checksum error")
    else .ok (slice decoded versionLen (decoded.length - 4), version)

/-- The Base58Check branch of `btcutil.DecodeAddress(addr, defaultNet)`, with
the registered networks of `chaincfg` as `registered`: the version has the
length of `defaultNet.PubKeyHashAddrID`, the payload must be a 20-byte hash,
and the address class is the one the version is registered for; a version
that is registered for neither class ends in the unknown-address-type error.
The bech32 and hexadecimal public-key forms of an address string are outside
this instance and end in the unknown-format error. -/
def DecodeAddress (registered : List Params) (addr : String) (defaultNet : Params) :
    Except Error Address :=
  match CheckDecode addr defaultNet.PubKeyHashAddrID.length with
  | .error (.other "checksum error") => .error (.other "checksum mismatch")
  | .error _ => .error (.other "decoded address is of unknown format")
  | .ok (decoded, netID) =>
    if h : decoded.length = 20 then
      let isP2PKH := registered.any (fun n => n.PubKeyHashAddrID == netID)
      let isP2SH := registered.any (fun n => n.ScriptHashAddrID == netID)
      if isP2PKH && isP2SH then .error (.other "address collision")
      else if isP2PKH then .ok (.PubKeyHash { hash := ⟨decoded, h⟩, netID := netID })
      else if isP2SH then .ok (.ScriptHash { hash := ⟨decoded, h⟩, netID := netID })
      else .error (.other "unknown address type")
    else .error (.other "decoded address is of unknown size")

end base58


/-! ### Chain parameters -/

namespace chaincfg

/-- Go `chaincfg.MainNetParams`, the fields of `Params`. -/
def MainNetParams : Params :=
  { Name := "mainnet", Net := 0xd9b4bef9, PubKeyHashAddrID := [0x00], ScriptHashAddrID := [0x05] }

/-- Go `chaincfg.TestNet3Params`, the fields of `Params`. -/
def TestNet3Params : Params :=
  { Name := "testnet3", Net := 0x0709110b, PubKeyHashAddrID := [0x6f], ScriptHashAddrID := [0xc4] }

end chaincfg

/-- Constant `MainnetMagic`. -/
def MainnetMagic : Nat := 0xc2e3cbfa

/-- Constant `TestnetMagic`. -/
def TestnetMagic : Nat := 0x0709110b

/-- Variable `MainNetParams` after `init()`. -/
def MainNetParams : Params :=
  { chaincfg.MainNetParams with
    Net := MainnetMagic, PubKeyHashAddrID := [81], ScriptHashAddrID := [5] }

/-- Variable `TestNetParams` after `init()`. -/
def TestNetParams : Params :=
  { chaincfg.TestNet3Params with
    Net := TestnetMagic, PubKeyHashAddrID := [111], ScriptHashAddrID := [196] }

/-! ### Bitcoin wire encoding of a transaction list -/

namespace wire

/-- Go `wire.OutPoint`. -/
structure OutPoint where
  Hash : List UInt8
  Index : Nat
  deriving DecidableEq, Repr

/-- Go `wire.TxIn`. -/
structure TxIn where
  PreviousOutPoint : OutPoint
  SignatureScript : List UInt8
  Witness : List (List UInt8)
  Sequence : Nat
  deriving DecidableEq, Repr

/-- Go `wire.TxOut`. -/
structure TxOut where
  Value : Int
  PkScript : List UInt8
  deriving DecidableEq, Repr

/-- Go `wire.MsgTx`. -/
structure MsgTx where
  Version : Int
  TxIn : List TxIn
  TxOut : List TxOut
  LockTime : Nat
  deriving DecidableEq, Repr

/-- Constant `wire.MaxMessagePayload`. -/
def MaxMessagePayload : Nat := 1024 * 1024 * 32
/-- Constant `wire.MaxBlockPayload`. -/
def MaxBlockPayload : Nat := 4000000
/-- Constant `maxTxInPerMessage`. -/
def maxTxInPerMessage : Nat := MaxMessagePayload / 41 + 1
/-- Constant `maxTxOutPerMessage`. -/
def maxTxOutPerMessage : Nat := MaxMessagePayload / 9 + 1
/-- Constant `maxWitnessItemsPerInput`. -/
def maxWitnessItemsPerInput : Nat := 500000
/-- Constant `maxWitnessItemSize`. -/
def maxWitnessItemSize : Nat := 11000
/-- Constant `maxTxPerBlock`. -/
def maxTxPerBlock : Nat := MaxBlockPayload / 10 + 1

/-- A value of an error of type `wire.MessageError`. -/
def messageError (description : String) : Error := .other description

/-- Go `wire.ReadVarInt(r, pver)`: a discriminant byte, then 0, 2, 4 or 8
little-endian bytes, rejected when a shorter form would do. -/
def ReadVarInt (r : Reader) : Except Error (Nat × Reader) := do
  let (discriminant, r) ← binaryReadUint r 1
  if discriminant = 0xff then
    let (sv, r) ← binaryReadUint r 8
    if sv < 0x100000000 then throw (messageError "non-canonical varint") else pure (sv, r)
  else if discriminant = 0xfe then
    let (sv, r) ← binaryReadUint r 4
    if sv < 0x10000 then throw (messageError "non-canonical varint") else pure (sv, r)
  else if discriminant = 0xfd then
    let (sv, r) ← binaryReadUint r 2
    if sv < 0xfd then throw (messageError "non-canonical varint") else pure (sv, r)
  else pure (discriminant, r)

/-- Go `readScript(r, pver, maxAllowed, fieldName)`: a varint length and that
many bytes. -/
def readScript (r : Reader) (maxAllowed : Nat) : Except Error (List UInt8 × Reader) := do
  let (count, r) ← ReadVarInt r
  if count > maxAllowed then throw (messageError "script is larger than the max allowed size")
  else ReadFull r count

/-- Go `readTxIn(r, pver, version, ti)`. -/
def readTxIn (r : Reader) : Except Error (TxIn × Reader) := do
  let (hash, r) ← ReadFull r 32
  let (index, r) ← binaryReadUint r 4
  let (script, r) ← readScript r MaxMessagePayload
  let (sequence, r) ← binaryReadUint r 4
  pure ({ PreviousOutPoint := { Hash := hash, Index := index }, SignatureScript := script,
          Witness := [], Sequence := sequence }, r)

/-- Go `readTxOut(r, pver, version, to)`. -/
def readTxOut (r : Reader) : Except Error (TxOut × Reader) := do
  let (value, r) ← binaryReadUint r 8
  let (pkScript, r) ← readScript r MaxMessagePayload
  pure ({ Value := toInt64 value, PkScript := pkScript }, r)

/-- A loop reading `n` items one after the other. -/
def readMany {α : Type} (item : Reader → Except Error (α × Reader)) :
    Nat → Reader → Except Error (List α × Reader)
  | 0, r => pure ([], r)
  | n + 1, r => do
    let (x, r) ← item r
    let (xs, r) ← readMany item n r
    pure (x :: xs, r)

/-- The witness stack of one input: a varint count and that many items. -/
def readWitness (r : Reader) : Except Error (List (List UInt8) × Reader) := do
  let (witCount, r) ← ReadVarInt r
  if witCount > maxWitnessItemsPerInput then throw (messageError "too many witness items")
  else readMany (fun r => readScript r maxWitnessItemSize) witCount r

/-- The witness loop of `BtcDecode` over the inputs. -/
def readWitnesses : List TxIn → Reader → Except Error (List TxIn × Reader)
  | [], r => pure ([], r)
  | txin :: rest, r => do
    let (witness, r) ← readWitness r
    let (rest, r) ← readWitnesses rest r
    pure ({ txin with Witness := witness } :: rest, r)

/-- Go `(*MsgTx).BtcDecode(r, pver, enc)`. -/
def BtcDecode (r : Reader) (enc : MessageEncoding) : Except Error (MsgTx × Reader) := do
  let (version, r) ← binaryReadInt32 r
  let (count, r) ← ReadVarInt r
  let (flag, count, r) ←
    if count = 0 ∧ enc = .WitnessEncoding then do
      let (flag, r) ← ReadFull r 1
      if flag ≠ [0x01] then throw (messageError "witness tx but flag byte is not 0x01")
      else do
        let (count, r) ← ReadVarInt r
        pure (true, count, r)
    else pure (false, count, r)
  if count > maxTxInPerMessage then throw (messageError "too many input transactions") else
  let (txIn, r) ← readMany readTxIn count r
  let (count, r) ← ReadVarInt r
  if count > maxTxOutPerMessage then throw (messageError "too many output transactions") else
  let (txOut, r) ← readMany readTxOut count r
  let (txIn, r) ←
    if flag ∧ enc = .WitnessEncoding then readWitnesses txIn r else pure (txIn, r)
  let (lockTime, r) ← binaryReadUint r 4
  pure ({ Version := version, TxIn := txIn, TxOut := txOut, LockTime := lockTime }, r)

end wire

/-- Modelled from the spec: `utils.DecodeTransactions`, which is outside the
parser file. It decodes a varint-prefixed, optionally witness-tagged
transaction list from the bytes left in the cursor. -/
def wireDecodeTransactions (rest : List UInt8) (_pver : Nat) (enc : MessageEncoding) :
    Except Error (List wire.MsgTx) := do
  let (txCount, r) ← wire.ReadVarInt (NewReader rest)
  if txCount > wire.maxTxPerBlock then throw (wire.messageError "too many transactions")
  else do
    let (txs, _) ← wire.readMany (fun r => wire.BtcDecode r enc) txCount r
    pure txs

/-- Modelled from the spec: the host's canonical transaction record that the
converter `TxFromMsgTx` of the Bitcoin parser, which is outside the parser
file, produces from a wire transaction and the flag of the call. The record
keeps both, so two records are equal only for the same transaction and flag. -/
structure ChainTx where
  msg : wire.MsgTx
  flag : Bool
  deriving DecidableEq, Repr

instance : Inhabited ChainTx :=
  ⟨{ msg := { Version := 0, TxIn := [], TxOut := [], LockTime := 0 }, flag := false }⟩

/-- The networks registered with `chaincfg` once `GetChainParams` has run. -/
def registeredNets : List Params := [MainNetParams, TestNetParams]

/-- The instance of the external packages: the wire decoder and Base58Check. -/
def stdLib : Lib wire.MsgTx :=
  { DecodeTransactions := wireDecodeTransactions,
    CheckEncode := base58.CheckEncode,
    DecodeAddress := base58.DecodeAddress registeredNets }

/-- Modelled from the spec: the standard output-script-to-address resolver of
the Bitcoin parser, which is outside the parser file, on the two hash shapes:
`OP_DUP OP_HASH160 <20 bytes> OP_EQUALVERIFY OP_CHECKSIG` gives the
public-key-hash address, `OP_HASH160 <20 bytes> OP_EQUAL` the script-hash
address, both with the flag true; any other script gives no address and the
flag false. -/
def standardResolver (params : Params) (script : List UInt8) : AddrResult :=
  if script.length = 25 ∧ slice script 0 3 = [0x76, 0xa9, 0x14] ∧ slice script 23 25 = [0x88, 0xac]
  then ([base58.CheckEncode (slice script 3 23) params.PubKeyHashAddrID], true, none)
  else if script.length = 23 ∧ slice script 0 2 = [0xa9, 0x14] ∧ slice script 22 23 = [0x87]
  then ([base58.CheckEncode (slice script 2 22) params.ScriptHashAddrID], true, none)
  else ([], false, none)

/-- An instance of the value `btc.NewBitcoinParser(params, c)` returns. -/
def stdBitcoinParser (params : Params) : BitcoinParser wire.MsgTx ChainTx :=
  { Params := params,
    OutputScriptToAddressesFunc := standardResolver params,
    TxFromMsgTx := fun t flag => { msg := t, flag := flag } }

/-- The parser of the tests: `NewZettelkastenParser(GetChainParams("main"), c)`. -/
def mainParser : ZettelkastenParser wire.MsgTx ChainTx :=
  NewZettelkastenParser stdLib (stdBitcoinParser MainNetParams)

/-- A raw block: an 84-byte header with the timestamp 1529535924, 32 bytes of
whole-block hash, 65 bytes of miner signature, and a list of one transaction,
the first test transaction of `zettelparser_test.go`. -/
def sampleBlock : List UInt8 :=
  hexDecode "01000000"
  ++ List.replicate 32 0x11
  ++ List.replicate 32 0x22
  ++ hexDecode "b4dd2a5b00000000"
  ++ hexDecode "ffff001d"
  ++ hexDecode "2a000000"
  ++ List.replicate 32 0x33
  ++ List.replicate 65 0x44
  ++ hexDecode "01"
  ++ hexDecode ("01000000010000000000000000000000000000000000000000000000000000000000000000"
      ++ "ffffffff020102ffffffff017ad8c33900000000161449d9e77c83f75478027ee98e8b8409e3e0a02466ac"
      ++ "00000000")

/-- The block `ParseBlock` returns on `sampleBlock`. -/
def sampleParsed : Block ChainTx :=
  { Size := 266,
    Time := 1529535924,
    Txs := [{ msg :=
                { Version := 1,
                  TxIn := [{ PreviousOutPoint := { Hash := List.replicate 32 0, Index := 4294967295 },
                             SignatureScript := [1, 2],
                             Witness := [],
                             Sequence := 4294967295 }],
                  TxOut := [{ Value := 969136250,
                              PkScript := hexDecode "1449d9e77c83f75478027ee98e8b8409e3e0a02466ac" }],
                  LockTime := 0 },
              flag := false }] }

/-- The hash of the first test output, `49d9…2466`. -/
def sampleHash : List UInt8 :=
  hexDecode "49d9e77c83f75478027ee98e8b8409e3e0a02466"


/-! ## Parameter registry and `GetChainParams` -/

/-- State of package `chaincfg`: the registered network magics and the
registered address-prefix sets. `registerCalls` counts the calls of
`Register` so far; it is not part of the Go state and is kept to tell a call
that registers nothing from one that tries. -/
structure Registry where
  registeredNets : List Nat
  pubKeyHashAddrIDs : List (List UInt8)
  scriptHashAddrIDs : List (List UInt8)
  registerCalls : Nat
  deriving DecidableEq, Repr

/-- The registry of a fresh process, and after `chaincfg.ResetParams()`. -/
def Registry.empty : Registry :=
  { registeredNets := [], pubKeyHashAddrIDs := [], scriptHashAddrIDs := [], registerCalls := 0 }

namespace chaincfg

/-- Go `chaincfg.IsRegistered(params)`: the magic of `params` is registered. -/
def IsRegistered (reg : Registry) (params : Params) : Bool :=
  reg.registeredNets.contains params.Net

/-- Go `chaincfg.Register(params)`: `ErrDuplicateNet` when the magic is already
registered, else the magic and the two address prefixes are added. -/
def Register (reg : Registry) (params : Params) : Option Error × Registry :=
  let reg := { reg with registerCalls := reg.registerCalls + 1 }
  if reg.registeredNets.contains params.Net then
    (some (.other "duplicate Bitcoin network"), reg)
  else
    (none, { reg with
      registeredNets := reg.registeredNets.insert params.Net,
      pubKeyHashAddrIDs := reg.pubKeyHashAddrIDs.insert params.PubKeyHashAddrID,
      scriptHashAddrIDs := reg.scriptHashAddrIDs.insert params.ScriptHashAddrID })

end chaincfg

/-- A pointer to one of the two package variables, `&MainNetParams` or
`&TestNetParams`. -/
inductive ParamsPtr where
  | MainNetParams
  | TestNetParams
  deriving DecidableEq, Repr

/-- The parameter set a pointer points to. -/
def ParamsPtr.deref : ParamsPtr → Params
  | .MainNetParams => Zettelkasten.MainNetParams
  | .TestNetParams => Zettelkasten.TestNetParams

/-- Go `GetChainParams(chain)` on the registry `reg`: the pointer it returns,
or the error it panics with, and the registry afterwards. -/
def GetChainParams (reg : Registry) (chain : String) : Except Error ParamsPtr × Registry :=
  let (err, reg) : Option Error × Registry :=
    if !chaincfg.IsRegistered reg MainNetParams then
      let (err, reg) := chaincfg.Register reg MainNetParams
      if err = none then chaincfg.Register reg TestNetParams else (err, reg)
    else (none, reg)
  match err with
  | some e => (.error e, reg)
  | none =>
    if chain = "test" then (.ok .TestNetParams, reg)
    else (.ok .MainNetParams, reg)

/-- A transaction decoder that reads nothing and reports an empty list, in
place of `utils.DecodeTransactions`; the rest is `stdLib`. -/
def lenientLib : Lib wire.MsgTx :=
  { stdLib with DecodeTransactions := fun _ _ _ => .ok [] }

theorem remaining_length (r : Reader) : r.remaining.length = r.s.length - r.i := by
  simp [Reader.remaining]

/-- A read of `n > 0` bytes succeeds exactly when `n` bytes are left, and then
returns the next `n` bytes and moves the position by `n`. -/
theorem ReadFull_ok (r : Reader) (n : Nat) (h : r.i + n ≤ r.s.length) :
    ReadFull r n = .ok (slice r.s r.i (r.i + n), { r with i := r.i + n }) := by
  unfold ReadFull
  by_cases hn : n = 0
  · subst hn
    simp [slice]
  · have h1 : ¬ (r.remaining.length = 0) := by rw [remaining_length]; omega
    have h2 : ¬ (r.remaining.length < n) := by rw [remaining_length]; omega
    simp only [hn, h1, h2, if_false]
    simp [Reader.remaining, slice, List.take_drop, Nat.add_comm]

/-- A read of `n > 0` bytes with fewer than `n` bytes left fails with an
end-of-input error. -/
theorem ReadFull_short (r : Reader) (n : Nat) (hn0 : 0 < n) (h : r.s.length < r.i + n) :
    ∃ e, ReadFull r n = .error e ∧ e.isTruncated = true := by
  unfold ReadFull
  have hn : n ≠ 0 := by omega
  by_cases h1 : r.remaining.length = 0
  · exact ⟨.EOF, by simp [hn, h1], rfl⟩
  · have h2 : r.remaining.length < n := by rw [remaining_length]; omega
    exact ⟨.ErrUnexpectedEOF, by simp [hn, h1, h2], rfl⟩

/-- With at least 84 bytes the header part succeeds, decodes the fields at
their fixed offsets, and leaves the reader at position 181. -/
theorem readHeader_ok (b : List UInt8) (h : 84 ≤ b.length) :
    readHeader b = .ok (headerOf b, { s := b, i := 181 }) := by
  have e1 := ReadFull_ok { s := b, i := 0 } 4 (by simp; omega)
  have e2 := ReadFull_ok { s := b, i := 4 } 32 (by simp; omega)
  have e3 := ReadFull_ok { s := b, i := 36 } 32 (by simp; omega)
  have e4 := ReadFull_ok { s := b, i := 68 } 8 (by simp; omega)
  have e5 := ReadFull_ok { s := b, i := 76 } 4 (by simp; omega)
  have e6 := ReadFull_ok { s := b, i := 80 } 4 (by simp; omega)
  simp only [Nat.zero_add, Nat.reduceAdd] at e1 e2 e3 e4 e5 e6
  simp [readHeader, NewReader, binaryReadInt32, binaryReadBytes, binaryReadUint,
    e1, e2, e3, e4, e5, e6, Reader.Seek, headerOf]

/-- With fewer than 84 bytes one of the six reads fails with an end-of-input
error. -/
theorem readHeader_short (b : List UInt8) (h : b.length < 84) :
    ∃ e, readHeader b = .error e ∧ e.isTruncated = true := by
  by_cases h1 : b.length < 4
  · obtain ⟨e, he, ht⟩ := ReadFull_short { s := b, i := 0 } 4 (by omega) (by simp; omega)
    exact ⟨e, by simp [readHeader, NewReader, binaryReadInt32, he], ht⟩
  have e1 := ReadFull_ok { s := b, i := 0 } 4 (by simp; omega)
  by_cases h2 : b.length < 36
  · obtain ⟨e, he, ht⟩ := ReadFull_short { s := b, i := 4 } 32 (by omega) (by simp; omega)
    simp only [Nat.zero_add, Nat.reduceAdd] at e1
    exact ⟨e, by simp [readHeader, NewReader, binaryReadInt32, binaryReadBytes, e1, he], ht⟩
  have e2 := ReadFull_ok { s := b, i := 4 } 32 (by simp; omega)
  by_cases h3 : b.length < 68
  · obtain ⟨e, he, ht⟩ := ReadFull_short { s := b, i := 36 } 32 (by omega) (by simp; omega)
    simp only [Nat.zero_add, Nat.reduceAdd] at e1 e2
    exact ⟨e, by simp [readHeader, NewReader, binaryReadInt32, binaryReadBytes, e1, e2, he], ht⟩
  have e3 := ReadFull_ok { s := b, i := 36 } 32 (by simp; omega)
  by_cases h4 : b.length < 76
  · obtain ⟨e, he, ht⟩ := ReadFull_short { s := b, i := 68 } 8 (by omega) (by simp; omega)
    simp only [Nat.zero_add, Nat.reduceAdd] at e1 e2 e3
    exact ⟨e, by simp [readHeader, NewReader, binaryReadInt32, binaryReadBytes, binaryReadUint,
      e1, e2, e3, he], ht⟩
  have e4 := ReadFull_ok { s := b, i := 68 } 8 (by simp; omega)
  by_cases h5 : b.length < 80
  · obtain ⟨e, he, ht⟩ := ReadFull_short { s := b, i := 76 } 4 (by omega) (by simp; omega)
    simp only [Nat.zero_add, Nat.reduceAdd] at e1 e2 e3 e4
    exact ⟨e, by simp [readHeader, NewReader, binaryReadInt32, binaryReadBytes, binaryReadUint,
      e1, e2, e3, e4, he], ht⟩
  have e5 := ReadFull_ok { s := b, i := 76 } 4 (by simp; omega)
  obtain ⟨e, he, ht⟩ := ReadFull_short { s := b, i := 80 } 4 (by omega) (by simp; omega)
  simp only [Nat.zero_add, Nat.reduceAdd] at e1 e2 e3 e4 e5
  exact ⟨e, by simp [readHeader, NewReader, binaryReadInt32, binaryReadBytes, binaryReadUint,
    e1, e2, e3, e4, e5, he], ht⟩

/-- The header part succeeds exactly on buffers of at least 84 bytes. -/
theorem readHeader_ok_iff (b : List UInt8) :
    (∃ x, readHeader b = .ok x) ↔ 84 ≤ b.length := by
  constructor
  · rintro ⟨x, hx⟩
    by_contra hlt
    obtain ⟨e, he, _⟩ := readHeader_short b (by omega)
    rw [he] at hx
    cases hx
  · intro h
    exact ⟨_, readHeader_ok b h⟩

/-- The conversion loop writes the converted transactions, in order, over the
slots from `ti` on and leaves the slots before `ti` alone. -/
theorem convertLoop_eq {MsgTx Tx : Type} (conv : MsgTx → Bool → Tx) (ts : List MsgTx) :
    ∀ (done : List Tx) (todo : List Tx), todo.length = ts.length →
      convertLoop conv done.length ts (done ++ todo) = done ++ ts.map (fun t => conv t false) := by
  induction ts with
  | nil =>
    intro done todo h
    have : todo = [] := List.length_eq_zero.mp h
    simp [convertLoop, this]
  | cons t rest ih =>
    intro done todo h
    cases todo with
    | nil => simp at h
    | cons x todo1 =>
      have hset : (done ++ x :: todo1).set done.length (conv t false)
          = (done ++ [conv t false]) ++ todo1 := by
        simp [List.set_append]
      have := ih (done ++ [conv t false]) todo1 (by simpa using h)
      simp only [convertLoop, hset]
      simpa using this

/-- Closed form of `ParseBlock` on a buffer of at least 84 bytes. -/
theorem ParseBlock_of_le {MsgTx Tx : Type} [Inhabited Tx] (lib : Lib MsgTx)
    (p : ZettelkastenParser MsgTx Tx) (b : List UInt8) (h : 84 ≤ b.length) :
    ParseBlock lib p b =
      match lib.DecodeTransactions (b.drop 181) 0 .WitnessEncoding with
      | .error err => .error err
      | .ok transactions =>
        .ok { Size := b.length, Time := (headerOf b).Timestamp.Unix,
              Txs := transactions.map (fun t => p.TxFromMsgTx t false) } := by
  unfold ParseBlock
  rw [readHeader_ok b h]
  simp only [Reader.remaining]
  cases hd : lib.DecodeTransactions (List.drop 181 b) 0 MessageEncoding.WitnessEncoding with
  | error err => rfl
  | ok transactions =>
    have := convertLoop_eq p.TxFromMsgTx transactions [] (List.replicate transactions.length default)
      (by simp)
    simp only [List.length_nil, List.nil_append] at this
    simp [this]

/-! ## Timestamps -/

theorem leUint_lt (bs : List UInt8) : leUint bs < 256 ^ bs.length := by
  induction bs with
  | nil => simp [leUint]
  | cons b bs ih =>
    have hb : b.toNat < 256 := b.val.isLt
    simp only [leUint, List.length_cons, pow_succ]
    omega

theorem toInt64_range (x : Nat) : -2 ^ 63 ≤ toInt64 x ∧ toInt64 x < 2 ^ 63 := by
  unfold toInt64
  split <;> omega

/-- Passing an `int64` through `time.Unix(sec, 0)` and `.Unix()` returns it. -/
theorem timeUnix_Unix (sec : Int) (h1 : -2 ^ 63 ≤ sec) (h2 : sec < 2 ^ 63) :
    (timeUnix sec).Unix = sec := by
  simp only [timeUnix, Time.Unix, wrapInt64, unixToInternal]
  omega

theorem slice_length (b : List UInt8) (lo hi : Nat) (h : hi ≤ b.length) :
    (slice b lo hi).length = hi - lo := by
  simp [slice, List.length_take, Nat.min_eq_left h]

/-- A byte at offset 84 or later is outside every header field. -/
theorem headerOf_set (b : List UInt8) (j : Nat) (v : UInt8) (hj : 84 ≤ j) :
    headerOf (b.set j v) = headerOf b := by
  have t : ∀ m, m ≤ 84 → (b.set j v).take m = b.take m := by
    intro m hm
    apply List.ext_getElem?
    intro i
    rw [List.getElem?_take, List.getElem?_take]
    split
    · rw [List.getElem?_set_ne (by omega)]
    · rfl
  simp [headerOf, slice, t]

/-- Changing a byte at offset 84 or later leaves the outcome of the header
reads, up to the reader, as it was. -/
theorem readHeader_set (b : List UInt8) (j : Nat) (v : UInt8) (hj : 84 ≤ j) :
    (readHeader (b.set j v)).map Prod.fst = (readHeader b).map Prod.fst := by
  by_cases h : 84 ≤ b.length
  · rw [readHeader_ok b h, readHeader_ok (b.set j v) (by simpa using h)]
    simp [Except.map, headerOf_set b j v hj]
  · rw [List.set_eq_of_length_le (by omega)]

/-! ## Claims on `ParseBlock` -/

/-- C5: on every buffer on which `ParseBlock` succeeds (in particular on every
buffer of at least 181 bytes on which it succeeds) the returned `Size` is the
length of the buffer, whatever the header bytes and the decoded transactions. -/
theorem ParseBlock_size {MsgTx Tx : Type} [Inhabited Tx] (lib : Lib MsgTx)
    (p : ZettelkastenParser MsgTx Tx) (b : List UInt8) (blk : Block Tx)
    (hok : ParseBlock lib p b = .ok blk) : blk.Size = b.length := by
  have hlen : 84 ≤ b.length := by
    by_contra hlt
    obtain ⟨e, he, _⟩ := readHeader_short b (by omega)
    simp [ParseBlock, he] at hok
  rw [ParseBlock_of_le lib p b hlen] at hok
  cases hd : lib.DecodeTransactions (List.drop 181 b) 0 MessageEncoding.WitnessEncoding with
  | error err => simp [hd] at hok
  | ok transactions =>
    simp only [hd, Except.ok.injEq] at hok
    rw [← hok]

/-- C6: whenever the header part of `ParseBlock` succeeds the reader is at
offset 181 of the unchanged buffer, so the transaction decoder is handed
exactly `b[181..]`; `ParseBlock` is the header part followed by the decoder on
`b[181..]`; and changing any byte at offset 84 or later (byte 180 included)
changes neither the decoded version, hashes, timestamp, bits and nonce nor
the error of a failing header read. -/
theorem ParseBlock_consumes_181 {MsgTx Tx : Type} [Inhabited Tx] (lib : Lib MsgTx)
    (p : ZettelkastenParser MsgTx Tx) (b : List UInt8) :
    (∀ h r, readHeader b = .ok (h, r) →
      r.s = b ∧ r.i = 4 + 32 + 32 + 8 + 4 + 4 + 32 + 65 ∧ r.i = 181 ∧
        r.remaining = b.drop 181) ∧
    (ParseBlock lib p b =
      match readHeader b with
      | .error err => .error err
      | .ok (h, _) =>
        match lib.DecodeTransactions (b.drop 181) 0 .WitnessEncoding with
        | .error err => .error err
        | .ok transactions =>
          .ok { Size := b.length, Time := h.Timestamp.Unix,
                Txs := transactions.map (fun t => p.TxFromMsgTx t false) }) ∧
    (∀ j v, 84 ≤ j →
      (readHeader (b.set j v)).map Prod.fst = (readHeader b).map Prod.fst) := by
  refine ⟨?_, ?_, ?_⟩
  · intro h r hr
    have hlen : 84 ≤ b.length := (readHeader_ok_iff b).mp ⟨_, hr⟩
    rw [readHeader_ok b hlen] at hr
    simp only [Except.ok.injEq, Prod.mk.injEq] at hr
    obtain ⟨_, rfl⟩ := hr
    simp [Reader.remaining]
  · by_cases hlen : 84 ≤ b.length
    · rw [ParseBlock_of_le lib p b hlen, readHeader_ok b hlen]
    · obtain ⟨e, he, _⟩ := readHeader_short b (by omega)
      simp [ParseBlock, he]
  · intro j v hj
    exact readHeader_set b j v hj

/-- On a buffer of 84 to 180 bytes both skips succeed, the decoder is called
on the empty stream, and `ParseBlock` fails exactly with the error the decoder
reports there. -/
theorem ParseBlock_between {MsgTx Tx : Type} [Inhabited Tx] (lib : Lib MsgTx)
    (p : ZettelkastenParser MsgTx Tx) (b : List UInt8) (h84 : 84 ≤ b.length)
    (h181 : b.length < 181) (e : Error) :
    ParseBlock lib p b = .error e ↔ lib.DecodeTransactions [] 0 .WitnessEncoding = .error e := by
  have hdrop : b.drop 181 = [] := List.drop_eq_nil_of_le (by omega)
  rw [ParseBlock_of_le lib p b h84, hdrop]
  cases hd : lib.DecodeTransactions [] 0 MessageEncoding.WitnessEncoding with
  | error e1 => simp
  | ok transactions => simp

/-- C7: a buffer cut to `k < 181` bytes is rejected. For `k < 84` a header read
fails with an end-of-input error, whatever the transaction decoder does. For
`84 ≤ k < 181` both skips succeed and the decoder is called on an empty
stream: `ParseBlock` fails with exactly the error the decoder reports there,
so with an end-of-input error whenever the decoder reports end of input on
an empty stream, as a decoder of a varint-prefixed list does. -/
theorem ParseBlock_truncated {MsgTx Tx : Type} [Inhabited Tx] (lib : Lib MsgTx)
    (p : ZettelkastenParser MsgTx Tx) (b : List UInt8) (k : Nat) (hk : k < 181) :
    (k < 84 → ∃ e, ParseBlock lib p (b.take k) = .error e ∧ e.isTruncated = true) ∧
    (84 ≤ (b.take k).length → ∀ e, ParseBlock lib p (b.take k) = .error e ↔
      lib.DecodeTransactions [] 0 .WitnessEncoding = .error e) ∧
    ((∃ e, lib.DecodeTransactions [] 0 .WitnessEncoding = .error e ∧ e.isTruncated = true) →
      ∃ e, ParseBlock lib p (b.take k) = .error e ∧ e.isTruncated = true) := by
  have hlen : (b.take k).length ≤ k := by simp
  have short : (b.take k).length < 84 →
      ∃ e, ParseBlock lib p (b.take k) = .error e ∧ e.isTruncated = true := by
    intro h
    obtain ⟨e, he, ht⟩ := readHeader_short (b.take k) h
    exact ⟨e, by simp [ParseBlock, he], ht⟩
  refine ⟨fun h => short (by omega), ?_, ?_⟩
  · intro h84 e
    exact ParseBlock_between lib p (b.take k) h84 (by omega) e
  · rintro ⟨e, he, ht⟩
    by_cases h84 : (b.take k).length < 84
    · exact short h84
    · exact ⟨e, (ParseBlock_between lib p (b.take k) (by omega) (by omega) e).mpr he, ht⟩

/-- C8: when `ParseBlock` succeeds the decoder succeeded on `b[181..]`, the
returned `Txs` is as long as the decoded list, and its entry `i` is
`TxFromMsgTx` of the decoded transaction `i` with the flag false. -/
theorem ParseBlock_txs {MsgTx Tx : Type} [Inhabited Tx] (lib : Lib MsgTx)
    (p : ZettelkastenParser MsgTx Tx) (b : List UInt8) (blk : Block Tx)
    (hok : ParseBlock lib p b = .ok blk) :
    ∃ transactions, lib.DecodeTransactions (b.drop 181) 0 .WitnessEncoding = .ok transactions ∧
      blk.Txs.length = transactions.length ∧
      ∀ i : Nat, blk.Txs[i]? = (transactions[i]?).map (fun t => p.TxFromMsgTx t false) := by
  have hlen : 84 ≤ b.length := by
    by_contra hlt
    obtain ⟨e, he, _⟩ := readHeader_short b (by omega)
    simp [ParseBlock, he] at hok
  rw [ParseBlock_of_le lib p b hlen] at hok
  cases hd : lib.DecodeTransactions (List.drop 181 b) 0 MessageEncoding.WitnessEncoding with
  | error err => simp [hd] at hok
  | ok transactions =>
    simp only [hd, Except.ok.injEq] at hok
    refine ⟨transactions, rfl, ?_, ?_⟩
    · rw [← hok]; simp
    · intro i
      rw [← hok]; simp

/-- C9: when `ParseBlock` succeeds the returned `Time` is the little-endian
unsigned 64-bit integer `t` of bytes 68..75 read as a signed 64-bit value:
`t` itself below `2^63`, `t - 2^64` from `2^63` on. -/
theorem ParseBlock_time {MsgTx Tx : Type} [Inhabited Tx] (lib : Lib MsgTx)
    (p : ZettelkastenParser MsgTx Tx) (b : List UInt8) (blk : Block Tx)
    (hok : ParseBlock lib p b = .ok blk) :
    (slice b 68 76).length = 8 ∧ leUint (slice b 68 76) < 2 ^ 64 ∧
    blk.Time = toInt64 (leUint (slice b 68 76)) ∧
    (leUint (slice b 68 76) < 2 ^ 63 → blk.Time = (leUint (slice b 68 76) : Int)) ∧
    (2 ^ 63 ≤ leUint (slice b 68 76) →
      blk.Time = (leUint (slice b 68 76) : Int) - 2 ^ 64 ∧ blk.Time < 0) := by
  have hlen : 84 ≤ b.length := by
    by_contra hlt
    obtain ⟨e, he, _⟩ := readHeader_short b (by omega)
    simp [ParseBlock, he] at hok
  have h8 : (slice b 68 76).length = 8 := by rw [slice_length b 68 76 (by omega)]
  have hlt : leUint (slice b 68 76) < 2 ^ 64 := by
    have := leUint_lt (slice b 68 76)
    rw [h8] at this
    norm_num at this ⊢
    exact this
  have htime : blk.Time = toInt64 (leUint (slice b 68 76)) := by
    rw [ParseBlock_of_le lib p b hlen] at hok
    cases hd : lib.DecodeTransactions (List.drop 181 b) 0 MessageEncoding.WitnessEncoding with
    | error err => simp [hd] at hok
    | ok transactions =>
      simp only [hd, Except.ok.injEq] at hok
      rw [← hok]
      obtain ⟨r1, r2⟩ := toInt64_range (leUint (slice b 68 76))
      simp only [headerOf]
      exact timeUnix_Unix _ r1 r2
  refine ⟨h8, hlt, htime, ?_, ?_⟩
  · intro h
    rw [htime]
    unfold toInt64
    rw [Nat.mod_eq_of_lt hlt, if_pos h]
  · intro h
    rw [htime]
    unfold toInt64
    rw [Nat.mod_eq_of_lt hlt, if_neg (by omega)]
    constructor
    · rfl
    · omega

/-! ## Script construction -/

/-- The payload of a decoded address has 20, 32, 33 or 65 bytes. -/
theorem ScriptAddress_length (da : Address) :
    da.ScriptAddress.length = 20 ∨ da.ScriptAddress.length = 32 ∨
      da.ScriptAddress.length = 33 ∨ da.ScriptAddress.length = 65 := by
  cases da with
  | PubKeyHash a => exact Or.inl a.hash.property
  | ScriptHash a => exact Or.inl a.hash.property
  | PubKey serialized _ =>
    rcases serialized.property with h | h
    · exact Or.inr (Or.inr (Or.inl h))
    · exact Or.inr (Or.inr (Or.inr h))
  | WitnessPubKeyHash _ _ w => exact Or.inl w.property
  | WitnessScriptHash _ _ w => exact Or.inr (Or.inl w.property)

/-- A push of 2 to 75 bytes followed by `OP_CHECKSIG`: the length byte, the
data, and `0xac`; the builder records no error. -/
theorem build_push_checksig (data : List UInt8) (h2 : 2 ≤ data.length) (h75 : data.length ≤ 75) :
    ((NewScriptBuilder.AddData data).AddOp OP_CHECKSIG).Script
      = .ok ([UInt8.ofNat data.length] ++ data ++ [0xac]) := by
  have n0 : data.length ≠ 0 := by omega
  have n1 : data.length ≠ 1 := by omega
  have l76 : data.length < 76 := by omega
  have e76 : OP_PUSHDATA1.toNat = 76 := by decide
  have e1 : OP_DATA_1.toNat = 1 := by decide
  have hadd : NewScriptBuilder.AddData data
      = { script := [UInt8.ofNat data.length] ++ data, err := none } := by
    have hsz : ¬ (1 + data.length > 10000) := by omega
    have h520 : ¬ (data.length > 520) := by omega
    simp [NewScriptBuilder, ScriptBuilder.AddData, ScriptBuilder.addData, canonicalDataSize,
      MaxScriptSize, MaxScriptElementSize, n0, n1, l76, hsz, h520, e76, e1]
  have hop : ¬ (([UInt8.ofNat data.length] ++ data).length + 1 > MaxScriptSize) := by
    simp [MaxScriptSize]
    omega
  rw [hadd]
  simp only [ScriptBuilder.AddOp, Option.isSome_none, Bool.false_eq_true, if_false, hop,
    ScriptBuilder.Script]
  rfl

/-! ## Claims on the address and script codec -/

/-- The fast path: a script of 22 bytes gives the encoding of `s[1:21]` under
`PubKeyHashAddrID`, the flag true and no error. -/
theorem outputScriptToAddresses_fast {MsgTx Tx : Type} (lib : Lib MsgTx)
    (p : ZettelkastenParser MsgTx Tx) (s : List UInt8) (h : s.length = 22) :
    p.outputScriptToAddresses lib s
      = ([lib.CheckEncode (slice s 1 21) p.Params.PubKeyHashAddrID], true, none) := by
  have h20 : (slice s 1 21).length = 20 := by rw [slice_length s 1 21 (by omega)]
  simp [ZettelkastenParser.outputScriptToAddresses, NewAddressPubKeyHash, h, h20,
    AddressPubKeyHash.EncodeAddress]

/-- C1: for every script `s` of exactly 22 bytes and every parser (so every
network parameter set), `NewAddressPubKeyHash` succeeds on the 20 bytes
`s[1:21]`, and `outputScriptToAddresses` returns the one address that encodes
these bytes under `PubKeyHashAddrID`, the flag true and no error. -/
theorem outputScriptToAddresses_len22 {MsgTx Tx : Type} (lib : Lib MsgTx)
    (p : ZettelkastenParser MsgTx Tx) (s : List UInt8) (h : s.length = 22) :
    ∃ a : AddressPubKeyHash,
      NewAddressPubKeyHash (slice s 1 (s.length - 1)) p.Params = .ok a ∧
      a.hash.val = slice s 1 21 ∧ a.hash.val.length = 20 ∧
      a.netID = p.Params.PubKeyHashAddrID ∧
      p.outputScriptToAddresses lib s = ([a.EncodeAddress lib], true, none) ∧
      a.EncodeAddress lib = lib.CheckEncode (slice s 1 21) p.Params.PubKeyHashAddrID := by
  have h20 : (slice s 1 21).length = 20 := by rw [slice_length s 1 21 (by omega)]
  refine ⟨{ hash := ⟨slice s 1 21, h20⟩, netID := p.Params.PubKeyHashAddrID }, ?_, rfl, h20,
    rfl, ?_, rfl⟩
  · simp [NewAddressPubKeyHash, h, h20]
  · simp [ZettelkastenParser.outputScriptToAddresses, NewAddressPubKeyHash, h, h20]

/-- C2: for every script whose length is not 22 the parser that
`NewZettelkastenParser` builds returns the triple of the resolver it found in
the Bitcoin parser and saved, both when the method is called and when the
installed function field is called. -/
theorem outputScriptToAddresses_delegates {MsgTx Tx : Type} (lib : Lib MsgTx)
    (bp : BitcoinParser MsgTx Tx) (s : List UInt8) (h : s.length ≠ 22) :
    (NewZettelkastenParser lib bp).BitcoinOutputScriptToAddressesFunc
        = bp.OutputScriptToAddressesFunc ∧
    (NewZettelkastenParser lib bp).outputScriptToAddresses lib s
        = bp.OutputScriptToAddressesFunc s ∧
    (NewZettelkastenParser lib bp).BitcoinParser.OutputScriptToAddressesFunc s
        = bp.OutputScriptToAddressesFunc s := by
  refine ⟨rfl, ?_, ?_⟩
  · simp [NewZettelkastenParser, ZettelkastenParser.outputScriptToAddresses, h]
  · simp [NewZettelkastenParser, ZettelkastenParser.outputScriptToAddresses, h]

/-- The descriptor of an address is the script `0x14 ++ h ++ 0xac` of a 20-byte
hash `h` exactly when the address codec decodes the address to an address
with payload `h`. -/
theorem GetAddrDescFromAddress_eq_iff {MsgTx Tx : Type} (lib : Lib MsgTx)
    (p : ZettelkastenParser MsgTx Tx) (a : String) (h : List UInt8) (hlen : h.length = 20) :
    p.GetAddrDescFromAddress lib a = .ok ([0x14] ++ h ++ [0xac]) ↔
      ∃ da, lib.DecodeAddress a p.Params = .ok da ∧ da.ScriptAddress = h := by
  constructor
  · intro hget
    cases hd : lib.DecodeAddress a p.Params with
    | error e =>
      simp [ZettelkastenParser.GetAddrDescFromAddress,
        ZettelkastenParser.addressToOutputScript, hd] at hget
    | ok da =>
      have hl := ScriptAddress_length da
      have hb := build_push_checksig da.ScriptAddress (by omega) (by omega)
      simp only [ZettelkastenParser.GetAddrDescFromAddress,
        ZettelkastenParser.addressToOutputScript, hd, hb, Except.ok.injEq] at hget
      refine ⟨da, rfl, ?_⟩
      have h2 : da.ScriptAddress ++ [0xac] = h ++ [0xac] := by
        simpa using (List.cons.inj hget).2
      exact List.append_cancel_right h2
  · rintro ⟨da, hda, hpay⟩
    have hb := build_push_checksig da.ScriptAddress (by rw [hpay]; omega) (by rw [hpay]; omega)
    simp only [ZettelkastenParser.GetAddrDescFromAddress,
      ZettelkastenParser.addressToOutputScript, hda, hb]
    rw [hpay, hlen]
    rfl

/-- C4: for every address string that decodes, the payload has between 1 and
75 bytes and `addressToOutputScript` returns the `n + 2` bytes
`[n] ++ payload ++ [0xac]`; a public-key-hash address and a script-hash address
with the same 20-byte hash give the same 22-byte script. -/
theorem addressToOutputScript_framing {MsgTx Tx : Type} (lib : Lib MsgTx)
    (p : ZettelkastenParser MsgTx Tx) :
    (∀ a da, lib.DecodeAddress a p.Params = .ok da →
      1 ≤ da.ScriptAddress.length ∧ da.ScriptAddress.length ≤ 75 ∧
      p.addressToOutputScript lib a
        = .ok ([UInt8.ofNat da.ScriptAddress.length] ++ da.ScriptAddress ++ [0xac]) ∧
      ([UInt8.ofNat da.ScriptAddress.length] ++ da.ScriptAddress ++ [0xac]).length
        = da.ScriptAddress.length + 2) ∧
    (∀ a1 a2 x y, lib.DecodeAddress a1 p.Params = .ok (.PubKeyHash x) →
      lib.DecodeAddress a2 p.Params = .ok (.ScriptHash y) → x.hash = y.hash →
      p.addressToOutputScript lib a1 = p.addressToOutputScript lib a2 ∧
      p.addressToOutputScript lib a1 = .ok ([0x14] ++ x.hash.val ++ [0xac]) ∧
      ([0x14] ++ x.hash.val ++ [0xac]).length = 22) := by
  have key : ∀ a da, lib.DecodeAddress a p.Params = .ok da →
      p.addressToOutputScript lib a
        = .ok ([UInt8.ofNat da.ScriptAddress.length] ++ da.ScriptAddress ++ [0xac]) := by
    intro a da hda
    have hl := ScriptAddress_length da
    have hb := build_push_checksig da.ScriptAddress (by omega) (by omega)
    simp only [ZettelkastenParser.addressToOutputScript, hda, hb]
  constructor
  · intro a da hda
    have hl := ScriptAddress_length da
    exact ⟨by omega, by omega, key a da hda, by simp⟩
  · intro a1 a2 x y h1 h2 hxy
    have k1 := key a1 _ h1
    have k2 := key a2 _ h2
    have lx : x.hash.val.length = 20 := x.hash.property
    have ly : y.hash.val.length = 20 := y.hash.property
    simp only [Address.ScriptAddress, lx, ly] at k1 k2
    refine ⟨?_, ?_, by simp [lx]⟩
    · rw [k1, k2, hxy]
    · rw [k1]; rfl

/-- C10: `addressToOutputScript` fails exactly when the address does not
decode: a decoded address always gives a script, and a decode error is
returned as it is. -/
theorem addressToOutputScript_error_iff {MsgTx Tx : Type} (lib : Lib MsgTx)
    (p : ZettelkastenParser MsgTx Tx) (a : String) :
    ((∃ e, p.addressToOutputScript lib a = .error e) ↔
      (∃ e, lib.DecodeAddress a p.Params = .error e)) ∧
    (∀ da, lib.DecodeAddress a p.Params = .ok da →
      ((NewScriptBuilder.AddData da.ScriptAddress).AddOp OP_CHECKSIG).err = none ∧
      ∃ script, p.addressToOutputScript lib a = .ok script) ∧
    (∀ e, lib.DecodeAddress a p.Params = .error e →
      p.addressToOutputScript lib a = .error e) := by
  have hok : ∀ da, lib.DecodeAddress a p.Params = .ok da →
      ((NewScriptBuilder.AddData da.ScriptAddress).AddOp OP_CHECKSIG).err = none ∧
      ∃ script, p.addressToOutputScript lib a = .ok script := by
    intro da hda
    have hl := ScriptAddress_length da
    have hb := build_push_checksig da.ScriptAddress (by omega) (by omega)
    constructor
    · cases herr : ((NewScriptBuilder.AddData da.ScriptAddress).AddOp OP_CHECKSIG).err with
      | none => rfl
      | some e => simp [ScriptBuilder.Script, herr] at hb
    · exact ⟨[UInt8.ofNat da.ScriptAddress.length] ++ da.ScriptAddress ++ [0xac], by
        simp only [ZettelkastenParser.addressToOutputScript, hda, hb]⟩
  have herr : ∀ e, lib.DecodeAddress a p.Params = .error e →
      p.addressToOutputScript lib a = .error e := by
    intro e he
    simp only [ZettelkastenParser.addressToOutputScript, he]
  refine ⟨⟨?_, ?_⟩, hok, herr⟩
  · rintro ⟨e, he⟩
    cases hd : lib.DecodeAddress a p.Params with
    | error e1 => exact ⟨e1, rfl⟩
    | ok da =>
      obtain ⟨_, script, hs⟩ := hok da hd
      rw [hs] at he
      cases he
  · rintro ⟨e, he⟩
    exact ⟨e, herr e he⟩

/-! ## Base58Check decodes what it encodes -/

namespace base58

theorem b58_alphabet : ∀ d, d < 58 → b58 (alphabet.getD d alphabetIdx0) = some d := by
  decide

theorem alphabet_ne_idx0 : ∀ d, d < 58 → 0 < d → alphabet.getD d alphabetIdx0 ≠ alphabetIdx0 := by
  decide

theorem encodeLoop_acc (fuel x : Nat) (acc : List Char) :
    encodeLoop fuel x acc = acc ++ encodeLoop fuel x [] := by
  induction fuel generalizing x acc with
  | zero => simp [encodeLoop]
  | succ n ih =>
    simp only [encodeLoop]
    split
    · rw [ih, ih (x / 58) ([] ++ _)]
      simp
    · simp

theorem decodeLoop_zeros (k a j : Nat) :
    decodeLoop (List.replicate k alphabetIdx0) a j = some a := by
  induction k generalizing a j with
  | zero => rfl
  | succ n ih =>
    have h0 : b58 alphabetIdx0 = some 0 := by decide
    simp [List.replicate_succ, decodeLoop, h0, ih]

theorem decodeLoop_encodeLoop (fuel : Nat) :
    ∀ x, x < 58 ^ fuel → ∀ k a j,
      decodeLoop (encodeLoop fuel x [] ++ List.replicate k alphabetIdx0) a j = some (a + j * x) := by
  induction fuel with
  | zero =>
    intro x hx k a j
    have : x = 0 := by simpa using hx
    subst this
    simp [encodeLoop, decodeLoop_zeros]
  | succ n ih =>
    intro x hx k a j
    simp only [encodeLoop]
    split
    · rw [encodeLoop_acc]
      have hd : x % 58 < 58 := Nat.mod_lt _ (by decide)
      have hq : x / 58 < 58 ^ n := by
        rw [Nat.div_lt_iff_lt_mul (by decide)]
        rw [pow_succ] at hx
        exact hx
      simp only [List.nil_append, List.singleton_append, List.cons_append, decodeLoop,
        b58_alphabet _ hd]
      change decodeLoop (encodeLoop n (x / 58) [] ++ List.replicate k alphabetIdx0) _ _ = _
      rw [ih _ hq]
      congr 1
      have := Nat.div_add_mod x 58
      rw [Nat.mul_assoc, Nat.add_assoc, ← Nat.mul_add]
      congr 2
      omega
    · have : x = 0 := by omega
      subst this
      simp [decodeLoop_zeros]

theorem encodeLoop_zero (fuel : Nat) : encodeLoop fuel 0 [] = [] := by
  cases fuel <;> simp [encodeLoop]

theorem encodeLoop_pos (fuel x : Nat) (hx : 0 < x) :
    encodeLoop (fuel + 1) x []
      = alphabet.getD (x % 58) alphabetIdx0 :: encodeLoop fuel (x / 58) [] := by
  simp only [encodeLoop, gt_iff_lt, hx, if_true]
  rw [encodeLoop_acc]
  rfl

/-- The most significant digit that `encodeLoop` writes is not zero. -/
theorem encodeLoop_getLast (fuel : Nat) :
    ∀ x, x < 58 ^ fuel → (encodeLoop fuel x []).getLast? ≠ some alphabetIdx0 := by
  induction fuel with
  | zero => intro x _; simp [encodeLoop]
  | succ n ih =>
    intro x hx
    by_cases h0 : x = 0
    · subst h0; simp [encodeLoop]
    · rw [encodeLoop_pos n x (by omega)]
      have hq : x / 58 < 58 ^ n := by
        rw [Nat.div_lt_iff_lt_mul (by decide)]
        rw [pow_succ] at hx
        exact hx
      by_cases hz : x / 58 = 0
      · rw [hz, encodeLoop_zero]
        have hlt : x < 58 := by
          by_contra hge
          have : 1 ≤ x / 58 := (Nat.one_le_div_iff (by decide)).mpr (by omega)
          omega
        have hm : x % 58 = x := Nat.mod_eq_of_lt hlt
        rw [hm]
        simp only [List.getLast?_singleton, ne_eq, Option.some.injEq]
        exact alphabet_ne_idx0 x hlt (by omega)
      · have hne : encodeLoop n (x / 58) [] ≠ [] := by
          cases n with
          | zero => simp at hq; omega
          | succ m => rw [encodeLoop_pos m _ (by omega)]; simp
        obtain ⟨c, rest, hcr⟩ := List.exists_cons_of_ne_nil hne
        have := ih _ hq
        rw [hcr] at this ⊢
        rw [List.getLast?_cons_cons]
        exact this

/-- The number of digits `encodeLoop` writes is enough for the number. -/
theorem encodeLoop_bound (fuel : Nat) :
    ∀ x, x < 58 ^ fuel → x < 58 ^ (encodeLoop fuel x []).length := by
  induction fuel with
  | zero => intro x hx; simpa [encodeLoop] using hx
  | succ n ih =>
    intro x hx
    by_cases h0 : x = 0
    · subst h0; simp
    · rw [encodeLoop_pos n x (by omega)]
      have hq : x / 58 < 58 ^ n := by
        rw [Nat.div_lt_iff_lt_mul (by decide)]
        rw [pow_succ] at hx
        exact hx
      have := ih _ hq
      rw [Nat.div_lt_iff_lt_mul (by decide)] at this
      simpa [pow_succ] using this

theorem Bytes_acc (fuel x : Nat) (acc : List UInt8) :
    Bytes fuel x acc = Bytes fuel x [] ++ acc := by
  induction fuel generalizing x acc with
  | zero => simp [Bytes]
  | succ n ih =>
    simp only [Bytes]
    split
    · rw [ih, ih (x / 256) [_]]
      simp
    · simp

theorem SetBytes_append (l : List UInt8) (c : UInt8) :
    SetBytes (l ++ [c]) = SetBytes l * 256 + c.toNat := by
  simp [SetBytes, List.foldl_append]

theorem SetBytes_lt (l : List UInt8) : SetBytes l < 256 ^ l.length := by
  induction l using List.reverseRecOn with
  | nil => simp [SetBytes]
  | append_singleton l c ih =>
    rw [SetBytes_append]
    have hc : c.toNat < 256 := c.val.isLt
    simp only [List.length_append, List.length_singleton, pow_succ]
    omega

/-- A byte string without a leading zero is at least `256 ^ (length - 1)`. -/
theorem SetBytes_ge (l : List UInt8) (hne : l ≠ []) (hh : l.head? ≠ some 0) :
    256 ^ (l.length - 1) ≤ SetBytes l := by
  induction l using List.reverseRecOn with
  | nil => exact absurd rfl hne
  | append_singleton l c ih =>
    rw [SetBytes_append]
    by_cases hl : l = []
    · subst hl
      simp only [List.nil_append, List.length_singleton, Nat.sub_self, pow_zero]
      have : c ≠ 0 := by simpa using hh
      have : c.toNat ≠ 0 := by
        intro h0
        apply this
        exact UInt8.ext (by simpa using h0)
      simp [SetBytes]
      omega
    · have hh2 : l.head? ≠ some 0 := by
        cases l with
        | nil => exact absurd rfl hl
        | cons a t => simpa using hh
      have := ih hl hh2
      have hlen : 1 ≤ l.length := List.length_pos.mpr hl
      simp only [List.length_append, List.length_singleton, Nat.add_sub_cancel]
      have e : 256 ^ l.length = 256 ^ (l.length - 1) * 256 := by
        rw [← pow_succ]; congr 1; omega
      rw [e]
      omega

/-- Go `Bytes` returns a byte string without a leading zero as it is. -/
theorem Bytes_SetBytes (l : List UInt8) :
    l.head? ≠ some 0 → ∀ fuel, l.length ≤ fuel → Bytes fuel (SetBytes l) [] = l := by
  induction l using List.reverseRecOn with
  | nil => intro _ fuel _; cases fuel <;> simp [Bytes, SetBytes]
  | append_singleton l c ih =>
    intro hh fuel hf
    simp only [List.length_append, List.length_singleton] at hf
    obtain ⟨n, rfl⟩ : ∃ n, fuel = n + 1 := ⟨fuel - 1, by omega⟩
    have hc : c.toNat < 256 := c.val.isLt
    have hpos : 0 < SetBytes (l ++ [c]) := by
      have := SetBytes_ge (l ++ [c]) (by simp) hh
      have : 0 < 256 ^ ((l ++ [c]).length - 1) := Nat.pow_pos (by decide)
      omega
    rw [SetBytes_append] at hpos ⊢
    simp only [Bytes, gt_iff_lt, hpos, if_true]
    rw [Bytes_acc]
    have hdiv : (SetBytes l * 256 + c.toNat) / 256 = SetBytes l := by omega
    have hmod : (SetBytes l * 256 + c.toNat) % 256 = c.toNat := by omega
    rw [hdiv, hmod]
    have hcc : UInt8.ofNat c.toNat = c := by
      apply UInt8.ext
      simp only [UInt8.ofNat, UInt8.toNat, BitVec.toNat_ofNat]
      exact Nat.mod_eq_of_lt hc
    rw [hcc]
    by_cases hl : l = []
    · subst hl
      cases n <;> simp [Bytes, SetBytes]
    · have hh2 : l.head? ≠ some 0 := by
        cases l with
        | nil => exact absurd rfl hl
        | cons a t => simpa using hh
      rw [ih hh2 n (by omega)]

theorem SetBytes_zeros (k : Nat) (l : List UInt8) :
    SetBytes (List.replicate k 0 ++ l) = SetBytes l := by
  induction k with
  | zero => simp
  | succ n ih =>
    simp only [SetBytes, List.replicate_succ, List.cons_append, List.foldl_cons] at ih ⊢
    simpa using ih

theorem takeWhile_eq_replicate (b : List UInt8) :
    b.takeWhile (fun x => x == 0) = List.replicate (b.takeWhile (fun x => x == 0)).length 0 := by
  induction b with
  | nil => simp
  | cons a t ih =>
    by_cases ha : a = 0
    · subst ha
      simp only [List.takeWhile_cons, beq_self_eq_true, if_true, List.length_cons,
        List.replicate_succ]
      rw [← ih]
    · simp [List.takeWhile_cons, ha]

theorem dropWhile_head (b : List UInt8) :
    (b.dropWhile (fun x => x == 0)).head? ≠ some 0 := by
  induction b with
  | nil => simp
  | cons a t ih =>
    by_cases ha : a = 0
    · subst ha
      simpa [List.dropWhile_cons] using ih
    · simp [List.dropWhile_cons, ha]

theorem takeWhile_idx0 (k : Nat) (l : List Char) (hl : l.head? ≠ some alphabetIdx0) :
    (List.replicate k alphabetIdx0 ++ l).takeWhile (fun c => c == alphabetIdx0)
      = List.replicate k alphabetIdx0 := by
  induction k with
  | zero =>
    cases l with
    | nil => simp
    | cons c t =>
      have : c ≠ alphabetIdx0 := by simpa using hl
      simp [List.takeWhile_cons, this]
  | succ n ih =>
    simp only [List.replicate_succ, List.cons_append, List.takeWhile_cons, beq_self_eq_true,
      if_true]
    rw [ih]

/-- Go `Decode` returns the bytes that `Encode` was given. -/
theorem Decode_Encode (b : List UInt8) : Decode (Encode b) = b := by
  have hsplit : b.takeWhile (fun x => x == 0) ++ b.dropWhile (fun x => x == 0) = b :=
    List.takeWhile_append_dropWhile _ _
  generalize hz : b.takeWhile (fun x => x == 0) = z at hsplit
  generalize hb1 : b.dropWhile (fun x => x == 0) = b1 at hsplit
  have hzr : z = List.replicate z.length 0 := by rw [← hz]; exact takeWhile_eq_replicate b
  have hhead : b1.head? ≠ some 0 := by rw [← hb1]; exact dropWhile_head b
  have hX : SetBytes b = SetBytes b1 := by
    rw [← hsplit, hzr, SetBytes_zeros]
  have hXlt : SetBytes b < 58 ^ (2 * b.length) := by
    have h1 := SetBytes_lt b
    have h2 : 256 ^ b.length ≤ 58 ^ (2 * b.length) := by
      rw [pow_mul]
      exact Nat.pow_le_pow_left (by decide) _
    omega
  generalize hans : encodeLoop (2 * b.length) (SetBytes b) [] = answer
  have hlast : answer.getLast? ≠ some alphabetIdx0 := by
    rw [← hans]; exact encodeLoop_getLast _ _ hXlt
  have hbound : SetBytes b < 58 ^ answer.length := by
    rw [← hans]; exact encodeLoop_bound _ _ hXlt
  have hdec : decodeLoop (answer ++ List.replicate z.length alphabetIdx0) 0 1
      = some (SetBytes b) := by
    rw [← hans, decodeLoop_encodeLoop _ _ hXlt]
    simp
  have hlen1 : b1.length ≤ answer.length := by
    by_cases hne : b1 = []
    · simp [hne]
    · have h1 := SetBytes_ge b1 hne hhead
      rw [← hX] at h1
      have h2 : 58 ^ answer.length ≤ 256 ^ answer.length := Nat.pow_le_pow_left (by decide) _
      have h3 : 256 ^ (b1.length - 1) < 256 ^ answer.length := by omega
      have h4 := (Nat.pow_lt_pow_iff_right (by decide : 1 < 256)).mp h3
      omega
  have hzc : List.map (fun _ => alphabetIdx0) z = List.replicate z.length alphabetIdx0 := by
    rw [hzr]; simp
  have hrev : (answer ++ List.replicate z.length alphabetIdx0).reverse
      = List.replicate z.length alphabetIdx0 ++ answer.reverse := by
    simp
  have htw : ((answer ++ List.replicate z.length alphabetIdx0).reverse.takeWhile
      (fun c => c == alphabetIdx0)).length = z.length := by
    rw [hrev, takeWhile_idx0 _ _ (by rw [List.head?_reverse]; exact hlast)]
    simp
  simp only [Encode, Decode, hz, hans, hzc, String.length, String.toList,
    List.reverse_reverse, hdec, htw]
  rw [hX, Bytes_SetBytes b1 hhead _ (by simp; omega), ← hzr]
  exact hsplit

theorem checksum_length (input : List UInt8) : (checksum input).length = 4 := by
  simp [checksum, sha256.Sum256, sha256.putUintBE]

/-- Go `CheckDecode` returns the payload and the version that `CheckEncode`
was given. -/
theorem CheckDecode_CheckEncode (input version : List UInt8) :
    CheckDecode (CheckEncode input version) version.length = .ok (input, version) := by
  have hc := checksum_length (version ++ input)
  generalize hck : checksum (version ++ input) = cks at hc
  have hlen : (version ++ input ++ cks).length = version.length + input.length + 4 := by
    simp only [List.length_append, hc]
  have e1 : slice (version ++ input ++ cks) 0 version.length = version := by
    simp [slice, List.take_append_eq_append_take, List.take_of_length_le]
  have e2 : slice (version ++ input ++ cks) (version.length + input.length)
      (version.length + input.length + 4) = cks := by
    have : (version ++ input).length = version.length + input.length := by simp
    simp only [slice]
    rw [← hlen, List.take_length, ← this, List.drop_left]
  have e3 : slice (version ++ input ++ cks) 0 (version.length + input.length)
      = version ++ input := by
    have : (version ++ input).length = version.length + input.length := by simp
    simp only [slice, List.drop_zero]
    rw [← this, List.take_left]
  have e4 : slice (version ++ input ++ cks) version.length (version.length + input.length)
      = input := by
    have : (version ++ input).length = version.length + input.length := by simp
    simp only [slice]
    rw [← this, List.take_left, List.drop_left]
  have hnlt : ¬ (version.length + input.length + 4 < 4 + version.length) := by omega
  have hsub : version.length + input.length + 4 - 4 = version.length + input.length := by omega
  simp only [CheckDecode, CheckEncode, Decode_Encode, hck, hlen, hnlt, if_false, hsub, e1, e2, e3,
    e4, ne_eq, not_true_eq_false]

/-- The Base58Check branch decodes the encoding of a 20-byte hash under a
version registered for public-key-hash addresses only to the public-key-hash
address of that hash. -/
theorem DecodeAddress_CheckEncode_pkh (registered : List Params) (net : Params)
    (h netID : List UInt8) (hlen : h.length = 20)
    (hv : netID.length = net.PubKeyHashAddrID.length)
    (hreg : registered.any (fun n => n.PubKeyHashAddrID == netID) = true)
    (hnot : registered.any (fun n => n.ScriptHashAddrID == netID) = false) :
    DecodeAddress registered (CheckEncode h netID) net
      = .ok (.PubKeyHash { hash := ⟨h, hlen⟩, netID := netID }) := by
  simp only [DecodeAddress, ← hv, CheckDecode_CheckEncode, hlen, hreg, hnot]
  simp

end base58

/-- On the main network the instance codec decodes every address it encodes
for a 20-byte hash. -/
theorem stdLib_decode_encode_main (h : List UInt8) (hlen : h.length = 20) :
    stdLib.DecodeAddress (stdLib.CheckEncode h MainNetParams.PubKeyHashAddrID) MainNetParams
      = .ok (.PubKeyHash { hash := ⟨h, hlen⟩, netID := [81] }) := by
  have hid : MainNetParams.PubKeyHashAddrID = [81] := rfl
  rw [hid]
  simp only [stdLib]
  rw [base58.DecodeAddress_CheckEncode_pkh registeredNets MainNetParams h [81] hlen (by decide)
    (by decide) (by decide)]

/-- On the test network the instance codec decodes every address it encodes
for a 20-byte hash. -/
theorem stdLib_decode_encode_test (h : List UInt8) (hlen : h.length = 20) :
    stdLib.DecodeAddress (stdLib.CheckEncode h TestNetParams.PubKeyHashAddrID) TestNetParams
      = .ok (.PubKeyHash { hash := ⟨h, hlen⟩, netID := [111] }) := by
  have hid : TestNetParams.PubKeyHashAddrID = [111] := rfl
  rw [hid]
  simp only [stdLib]
  rw [base58.DecodeAddress_CheckEncode_pkh registeredNets TestNetParams h [111] hlen (by decide)
    (by decide) (by decide)]

/-- On the main network, with the Base58Check instance, the descriptor of the
address of every 20-byte hash `h` is the script `0x14 ++ h ++ 0xac` that gave
the address. -/
theorem mainParser_roundtrip (h : List UInt8) (hlen : h.length = 20) :
    mainParser.outputScriptToAddresses stdLib ([0x14] ++ h ++ [0xac])
      = ([stdLib.CheckEncode h MainNetParams.PubKeyHashAddrID], true, none) ∧
    mainParser.GetAddrDescFromAddress stdLib
        (stdLib.CheckEncode h MainNetParams.PubKeyHashAddrID)
      = .ok ([0x14] ++ h ++ [0xac]) := by
  have hsl : slice ([0x14] ++ h ++ [0xac]) 1 21 = h := by
    have : List.take 20 (h ++ [0xac]) = h := by
      rw [List.take_append_of_le_length (by omega), List.take_of_length_le (by omega)]
    simp [slice, this]
  constructor
  · rw [outputScriptToAddresses_fast stdLib mainParser _ (by simp [hlen]), hsl]
    rfl
  · exact (GetAddrDescFromAddress_eq_iff stdLib mainParser _ h hlen).mpr
      ⟨_, stdLib_decode_encode_main h hlen, rfl⟩

/-! ## Claims on `GetChainParams` -/

/-- The pointer `GetChainParams` selects for a chain name. -/
theorem GetChainParams_of_registered (reg : Registry) (chain : String)
    (h : chaincfg.IsRegistered reg MainNetParams = true) :
    GetChainParams reg chain
      = (.ok (if chain = "test" then .TestNetParams else .MainNetParams), reg) := by
  unfold GetChainParams
  simp only [h, Bool.not_true, Bool.false_eq_true, if_false]
  split <;> rfl

/-- Outcome of `Register` on a magic that is not registered. -/
theorem Register_fresh (reg : Registry) (params : Params)
    (h : reg.registeredNets.contains params.Net = false) :
    chaincfg.Register reg params
      = (none, { registeredNets := reg.registeredNets.insert params.Net,
                 pubKeyHashAddrIDs := reg.pubKeyHashAddrIDs.insert params.PubKeyHashAddrID,
                 scriptHashAddrIDs := reg.scriptHashAddrIDs.insert params.ScriptHashAddrID,
                 registerCalls := reg.registerCalls + 1 }) := by
  have h1 : params.Net ∉ reg.registeredNets := by simpa using h
  simp [chaincfg.Register, h1]

/-- Outcome of `Register` on a magic that is registered. -/
theorem Register_duplicate (reg : Registry) (params : Params)
    (h : reg.registeredNets.contains params.Net = true) :
    chaincfg.Register reg params
      = (some (.other "duplicate Bitcoin network"),
         { reg with registerCalls := reg.registerCalls + 1 }) := by
  have h1 : params.Net ∈ reg.registeredNets := by simpa using h
  simp [chaincfg.Register, h1]

/-- Closed form of `GetChainParams` on a registry without the main magic: the
main parameters are registered, then the test parameters, and the call
panics exactly when the test magic was registered before. -/
theorem GetChainParams_of_unregistered (reg : Registry) (chain : String)
    (h : chaincfg.IsRegistered reg MainNetParams = false) :
    (reg.registeredNets.contains TestnetMagic = true →
      GetChainParams reg chain
        = (.error (.other "duplicate Bitcoin network"),
           { registeredNets := reg.registeredNets.insert MainnetMagic,
             pubKeyHashAddrIDs := reg.pubKeyHashAddrIDs.insert [81],
             scriptHashAddrIDs := reg.scriptHashAddrIDs.insert [5],
             registerCalls := reg.registerCalls + 2 })) ∧
    (reg.registeredNets.contains TestnetMagic = false →
      GetChainParams reg chain
        = (.ok (if chain = "test" then .TestNetParams else .MainNetParams),
           { registeredNets := (reg.registeredNets.insert MainnetMagic).insert TestnetMagic,
             pubKeyHashAddrIDs := (reg.pubKeyHashAddrIDs.insert [81]).insert [111],
             scriptHashAddrIDs := (reg.scriptHashAddrIDs.insert [5]).insert [196],
             registerCalls := reg.registerCalls + 2 })) := by
  have hm : reg.registeredNets.contains MainNetParams.Net = false := h
  have hne : TestnetMagic ≠ MainnetMagic := by decide
  have r1 := Register_fresh reg MainNetParams hm
  have e1 : MainNetParams.Net = MainnetMagic := rfl
  have e2 : TestNetParams.Net = TestnetMagic := rfl
  have e3 : MainNetParams.PubKeyHashAddrID = [81] := rfl
  have e4 : MainNetParams.ScriptHashAddrID = [5] := rfl
  have e5 : TestNetParams.PubKeyHashAddrID = [111] := rfl
  have e6 : TestNetParams.ScriptHashAddrID = [196] := rfl
  rw [e1, e3, e4] at r1
  constructor
  · intro ht
    have hc : (reg.registeredNets.insert MainnetMagic).contains TestNetParams.Net = true := by
      rw [e2]
      simp only [List.contains_eq_any_beq, List.any_eq_true, beq_iff_eq] at ht ⊢
      obtain ⟨x, hx, hxe⟩ := ht
      exact ⟨x, List.mem_insert_of_mem hx, hxe⟩
    have r2 := Register_duplicate
      { registeredNets := reg.registeredNets.insert MainnetMagic,
        pubKeyHashAddrIDs := reg.pubKeyHashAddrIDs.insert [81],
        scriptHashAddrIDs := reg.scriptHashAddrIDs.insert [5],
        registerCalls := reg.registerCalls + 1 } TestNetParams hc
    unfold GetChainParams
    simp only [h, Bool.not_false, if_true, r1, r2]
  · intro ht
    have hc : (reg.registeredNets.insert MainnetMagic).contains TestNetParams.Net = false := by
      rw [e2]
      simp only [List.contains_eq_any_beq, List.any_eq_false, beq_iff_eq] at ht ⊢
      intro x hx
      rcases List.mem_insert_iff.mp hx with rfl | hx
      · exact fun hh => hne hh
      · exact ht x hx
    have r2 := Register_fresh
      { registeredNets := reg.registeredNets.insert MainnetMagic,
        pubKeyHashAddrIDs := reg.pubKeyHashAddrIDs.insert [81],
        scriptHashAddrIDs := reg.scriptHashAddrIDs.insert [5],
        registerCalls := reg.registerCalls + 1 } TestNetParams hc
    rw [e2, e5, e6] at r2
    unfold GetChainParams
    simp only [h, Bool.not_false, if_true, r1, r2]
    split <;> rfl

/-- After a call of `GetChainParams` that returned, the main magic is
registered. -/
theorem GetChainParams_registers (reg : Registry) (chain : String) (ptr : ParamsPtr)
    (reg1 : Registry) (h : GetChainParams reg chain = (.ok ptr, reg1)) :
    chaincfg.IsRegistered reg1 MainNetParams = true := by
  cases hr : chaincfg.IsRegistered reg MainNetParams with
  | true =>
    rw [GetChainParams_of_registered reg chain hr] at h
    rw [← (Prod.mk.inj h).2]
    exact hr
  | false =>
    obtain ⟨hdup, hfresh⟩ := GetChainParams_of_unregistered reg chain hr
    cases ht : reg.registeredNets.contains TestnetMagic with
    | true =>
      rw [hdup ht] at h
      cases (Prod.mk.inj h).1
    | false =>
      rw [hfresh ht] at h
      rw [← (Prod.mk.inj h).2]
      simp [chaincfg.IsRegistered, MainNetParams, List.mem_insert_iff]

/-- C12: whenever `GetChainParams` returns, it returns `&TestNetParams` for the
chain name "test" and `&MainNetParams` for every other name, the empty name
included; it returns on the registry of a fresh process and whenever the main
magic is registered, and panics only when the test magic is registered
without the main magic. The test set has magic 0x0709110b and prefixes 111
and 196, the main set magic 0xc2e3cbfa and prefixes 81 and 5; the two sets
differ in all three, and in each set the two prefixes differ. -/
theorem GetChainParams_selects (reg : Registry) (chain : String) :
    ((GetChainParams reg chain).1
        = .ok (if chain = "test" then .TestNetParams else .MainNetParams) ∨
      (chaincfg.IsRegistered reg MainNetParams = false ∧
        reg.registeredNets.contains TestnetMagic = true ∧
        ∃ e, (GetChainParams reg chain).1 = .error e)) ∧
    (GetChainParams Registry.empty chain).1
      = .ok (if chain = "test" then .TestNetParams else .MainNetParams) ∧
    (GetChainParams Registry.empty "test").1 = .ok .TestNetParams ∧
    (GetChainParams Registry.empty "").1 = .ok .MainNetParams ∧
    (ParamsPtr.TestNetParams.deref.Net = 0x0709110b ∧
      ParamsPtr.TestNetParams.deref.PubKeyHashAddrID = [111] ∧
      ParamsPtr.TestNetParams.deref.ScriptHashAddrID = [196]) ∧
    (ParamsPtr.MainNetParams.deref.Net = 0xc2e3cbfa ∧
      ParamsPtr.MainNetParams.deref.PubKeyHashAddrID = [81] ∧
      ParamsPtr.MainNetParams.deref.ScriptHashAddrID = [5]) ∧
    (ParamsPtr.MainNetParams.deref.Net ≠ ParamsPtr.TestNetParams.deref.Net ∧
      ParamsPtr.MainNetParams.deref.PubKeyHashAddrID
        ≠ ParamsPtr.TestNetParams.deref.PubKeyHashAddrID ∧
      ParamsPtr.MainNetParams.deref.ScriptHashAddrID
        ≠ ParamsPtr.TestNetParams.deref.ScriptHashAddrID) ∧
    (ParamsPtr.MainNetParams.deref.PubKeyHashAddrID
        ≠ ParamsPtr.MainNetParams.deref.ScriptHashAddrID ∧
      ParamsPtr.TestNetParams.deref.PubKeyHashAddrID
        ≠ ParamsPtr.TestNetParams.deref.ScriptHashAddrID) := by
  have hempty : ∀ c, (GetChainParams Registry.empty c).1
      = .ok (if c = "test" then .TestNetParams else .MainNetParams) := by
    intro c
    have := (GetChainParams_of_unregistered Registry.empty c rfl).2 rfl
    rw [this]
  refine ⟨?_, hempty chain, ?_, ?_, by decide, by decide, by decide, by decide⟩
  · cases hr : chaincfg.IsRegistered reg MainNetParams with
    | true =>
      left
      rw [GetChainParams_of_registered reg chain hr]
    | false =>
      obtain ⟨hdup, hfresh⟩ := GetChainParams_of_unregistered reg chain hr
      cases ht : reg.registeredNets.contains TestnetMagic with
      | true =>
        right
        exact ⟨rfl, rfl, _, by rw [hdup ht]⟩
      | false =>
        left
        rw [hfresh ht]
  · have := hempty "test"
    simpa using this
  · have := hempty ""
    simpa using this

/-- C13: after a call of `GetChainParams` that returned, every later call, with
any chain name, returns without a panic, leaves the registry as it is (the
count of `Register` calls included, so no registration is attempted), and
returns the pointer selected by the name; for the name of the earlier call
that is the pointer the earlier call returned, with the same contents. -/
theorem GetChainParams_idempotent (reg : Registry) (chain0 : String) (ptr0 : ParamsPtr)
    (reg1 : Registry) (h : GetChainParams reg chain0 = (.ok ptr0, reg1)) :
    (∀ chain, GetChainParams reg1 chain
      = (.ok (if chain = "test" then .TestNetParams else .MainNetParams), reg1)) ∧
    GetChainParams reg1 chain0 = (.ok ptr0, reg1) ∧
    (∀ chain ptr reg2, GetChainParams reg1 chain = (.ok ptr, reg2) →
      reg2 = reg1 ∧ reg2.registerCalls = reg1.registerCalls) ∧
    (∀ chains : List String,
      chains.foldl (fun r c => (GetChainParams r c).2) reg1 = reg1) := by
  have hreg := GetChainParams_registers reg chain0 ptr0 reg1 h
  have hall : ∀ chain, GetChainParams reg1 chain
      = (.ok (if chain = "test" then .TestNetParams else .MainNetParams), reg1) :=
    fun chain => GetChainParams_of_registered reg1 chain hreg
  have hptr : ptr0 = (if chain0 = "test" then .TestNetParams else .MainNetParams) := by
    cases hr : chaincfg.IsRegistered reg MainNetParams with
    | true =>
      rw [GetChainParams_of_registered reg chain0 hr] at h
      exact (Except.ok.inj (Prod.mk.inj h).1).symm
    | false =>
      obtain ⟨hdup, hfresh⟩ := GetChainParams_of_unregistered reg chain0 hr
      cases ht : reg.registeredNets.contains TestnetMagic with
      | true =>
        rw [hdup ht] at h
        cases (Prod.mk.inj h).1
      | false =>
        rw [hfresh ht] at h
        exact (Except.ok.inj (Prod.mk.inj h).1).symm
  refine ⟨hall, ?_, ?_, ?_⟩
  · rw [hall chain0, hptr]
  · intro chain ptr reg2 h2
    rw [hall chain] at h2
    have := (Prod.mk.inj h2).2
    exact ⟨this.symm, by rw [← this]⟩
  · intro chains
    induction chains with
    | nil => rfl
    | cons c cs ih =>
      simp only [List.foldl_cons, hall c]
      exact ih

/-- The prefixes registered by the first call of `GetChainParams` are those of
the networks the instance codec takes as registered. -/
theorem registry_after_first_call (chain : String) :
    (GetChainParams Registry.empty chain).2.pubKeyHashAddrIDs
        = (registeredNets.map (fun n => n.PubKeyHashAddrID)).reverse ∧
    (GetChainParams Registry.empty chain).2.scriptHashAddrIDs
        = (registeredNets.map (fun n => n.ScriptHashAddrID)).reverse := by
  have h := (GetChainParams_of_unregistered Registry.empty chain rfl).2 rfl
  rw [h]
  exact ⟨rfl, rfl⟩

/-! ## Further claims on `ParseBlock` -/

/-- C14 (amended): on a buffer of fewer than 84 bytes `ParseBlock` fails at one
of the six header reads with an end-of-input error, before the decoder is
called, so with the same error for every decoder. On a buffer of 84 to 180
bytes the six reads and the two skips succeed, the reader stands at offset
181 past the end, the decoder is called on the empty stream, and `ParseBlock`
fails exactly when the decoder fails there, with the decoder's error. -/
theorem ParseBlock_short_cases {MsgTx Tx : Type} [Inhabited Tx] (lib : Lib MsgTx)
    (p : ZettelkastenParser MsgTx Tx) (b : List UInt8) (h181 : b.length < 181) :
    (b.length < 84 →
      ∃ e, readHeader b = .error e ∧ e.isTruncated = true ∧
        ∀ (lib1 : Lib MsgTx) (p1 : ZettelkastenParser MsgTx Tx),
          ParseBlock lib1 p1 b = .error e) ∧
    (84 ≤ b.length →
      (∃ h, readHeader b = .ok (h, { s := b, i := 181 })) ∧
      ({ s := b, i := 181 } : Reader).remaining = [] ∧
      (∀ e, ParseBlock lib p b = .error e ↔
        lib.DecodeTransactions [] 0 .WitnessEncoding = .error e) ∧
      ((∃ blk, ParseBlock lib p b = .ok blk) ↔
        ∃ transactions, lib.DecodeTransactions [] 0 .WitnessEncoding = .ok transactions)) := by
  constructor
  · intro h84
    obtain ⟨e, he, ht⟩ := readHeader_short b h84
    exact ⟨e, he, ht, fun lib1 p1 => by simp [ParseBlock, he]⟩
  · intro h84
    have hdrop : b.drop 181 = [] := List.drop_eq_nil_of_le (by omega)
    refine ⟨⟨_, readHeader_ok b h84⟩, hdrop, fun e => ParseBlock_between lib p b h84 h181 e, ?_⟩
    rw [ParseBlock_of_le lib p b h84, hdrop]
    cases hd : lib.DecodeTransactions [] 0 MessageEncoding.WitnessEncoding with
    | error e1 => simp
    | ok transactions => simp

/-- C15: on a buffer of at least 181 bytes `ParseBlock` fails if and only if
the decoder fails on `b[181..]`, and then with the decoder's error;
it succeeds if and only if the decoder succeeds; and two buffers of the same
length that agree from offset 181 on fail together, with the same error,
whatever their 181 leading bytes are. -/
theorem ParseBlock_fails_iff {MsgTx Tx : Type} [Inhabited Tx] (lib : Lib MsgTx)
    (p : ZettelkastenParser MsgTx Tx) (b : List UInt8) (h181 : 181 ≤ b.length) :
    (∀ e, ParseBlock lib p b = .error e ↔
      lib.DecodeTransactions (b.drop 181) 0 .WitnessEncoding = .error e) ∧
    ((∃ blk, ParseBlock lib p b = .ok blk) ↔
      ∃ transactions,
        lib.DecodeTransactions (b.drop 181) 0 .WitnessEncoding = .ok transactions) ∧
    (∀ b1 : List UInt8, b1.length = b.length → b1.drop 181 = b.drop 181 →
      ∀ e, ParseBlock lib p b1 = .error e ↔ ParseBlock lib p b = .error e) := by
  have key : ∀ b0 : List UInt8, 181 ≤ b0.length →
      ∀ e, ParseBlock lib p b0 = .error e ↔
        lib.DecodeTransactions (b0.drop 181) 0 .WitnessEncoding = .error e := by
    intro b0 h0 e
    rw [ParseBlock_of_le lib p b0 (by omega)]
    cases hd : lib.DecodeTransactions (List.drop 181 b0) 0 MessageEncoding.WitnessEncoding with
    | error e1 => simp
    | ok transactions => simp
  refine ⟨key b h181, ?_, ?_⟩
  · rw [ParseBlock_of_le lib p b (by omega)]
    cases hd : lib.DecodeTransactions (List.drop 181 b) 0 MessageEncoding.WitnessEncoding with
    | error e1 => simp
    | ok transactions => simp
  · intro b1 hlen hdrop e
    rw [key b1 (by omega) e, key b h181 e, hdrop]

/-- Bytes 68..75 of two buffers agree when the buffers agree at these offsets. -/
theorem slice_congr (b b1 : List UInt8) (lo hi : Nat)
    (h : ∀ i : Nat, lo ≤ i → i < hi → b[i]? = b1[i]?) : slice b lo hi = slice b1 lo hi := by
  apply List.ext_getElem?
  intro n
  simp only [slice, List.getElem?_drop, List.getElem?_take]
  by_cases hn : lo + n < hi
  · simp only [hn, if_true]
    exact h (lo + n) (by omega) hn
  · simp [hn]

/-- The bytes from an offset on of two buffers agree when the buffers agree at
every offset from there on. -/
theorem drop_congr (b b1 : List UInt8) (lo : Nat)
    (h : ∀ i : Nat, lo ≤ i → b[i]? = b1[i]?) : b.drop lo = b1.drop lo := by
  apply List.ext_getElem?
  intro n
  simp only [List.getElem?_drop]
  exact h (lo + n) (by omega)

/-- C18: two buffers of the same length of at least 181 bytes that agree on
bytes 68..75 and on every byte from offset 181 on give the same result of
`ParseBlock`: the same error, or the same block. -/
theorem ParseBlock_depends_only {MsgTx Tx : Type} [Inhabited Tx] (lib : Lib MsgTx)
    (p : ZettelkastenParser MsgTx Tx) (b b1 : List UInt8) (hlen : b.length = b1.length)
    (h181 : 181 ≤ b.length)
    (hts : ∀ i : Nat, 68 ≤ i → i < 76 → b[i]? = b1[i]?)
    (htx : ∀ i : Nat, 181 ≤ i → b[i]? = b1[i]?) :
    ParseBlock lib p b = ParseBlock lib p b1 := by
  have e1 : slice b 68 76 = slice b1 68 76 := slice_congr b b1 68 76 hts
  have e2 : b.drop 181 = b1.drop 181 := drop_congr b b1 181 htx
  rw [ParseBlock_of_le lib p b (by omega), ParseBlock_of_le lib p b1 (by omega)]
  simp only [headerOf, e1, e2, hlen]

/-! ## Further claims on the address and script codec -/

/-- The bytes `s[1:21]` of the script `0x14 ++ h ++ 0xac` of a 20-byte `h`. -/
theorem slice_compact (h : List UInt8) (hlen : h.length = 20) :
    slice ([0x14] ++ h ++ [0xac]) 1 21 = h := by
  have : List.take 20 (h ++ [0xac]) = h := by
    rw [List.take_append_of_le_length (by omega), List.take_of_length_le (by omega)]
  simp [slice, this]

/-- A script of 22 bytes is its first byte, the 20 bytes `s[1:21]` and its last
byte. -/
theorem script22_eq (s : List UInt8) (h : s.length = 22) :
    ∃ first last, s = [first] ++ slice s 1 21 ++ [last] ∧
      s[0]? = some first ∧ s[21]? = some last := by
  match s, h with
  | [b0, b1, b2, b3, b4, b5, b6, b7, b8, b9, b10, b11, b12, b13, b14, b15, b16, b17, b18, b19,
      b20, b21], _ =>
    exact ⟨b0, b21, by simp [slice], by simp, by simp⟩

/-- C16: two scripts of 22 bytes with the same bytes `s[1:21]` give the same
result, one address and the flag true, under parsers with the same network
parameters, whatever bytes 0 and 21 are and whatever standard resolver the
parsers hold; in particular the result is that of
`0x14 ++ s[1:21] ++ 0xac`. -/
theorem fast_path_by_length {MsgTx Tx : Type} (lib : Lib MsgTx)
    (p p1 : ZettelkastenParser MsgTx Tx) (s s1 : List UInt8) (h : s.length = 22)
    (h1 : s1.length = 22) (hmid : slice s 1 21 = slice s1 1 21) (hpar : p.Params = p1.Params) :
    p.outputScriptToAddresses lib s = p1.outputScriptToAddresses lib s1 ∧
    p.outputScriptToAddresses lib s
      = ([lib.CheckEncode (slice s 1 21) p.Params.PubKeyHashAddrID], true, none) ∧
    p.outputScriptToAddresses lib s
      = p.outputScriptToAddresses lib ([0x14] ++ slice s 1 21 ++ [0xac]) := by
  have h20 : (slice s 1 21).length = 20 := by rw [slice_length s 1 21 (by omega)]
  refine ⟨?_, outputScriptToAddresses_fast lib p s h, ?_⟩
  · rw [outputScriptToAddresses_fast lib p s h, outputScriptToAddresses_fast lib p1 s1 h1, hmid,
      hpar]
  · rw [outputScriptToAddresses_fast lib p s h,
      outputScriptToAddresses_fast lib p _ (by simp [h20]), slice_compact _ h20]

/-- The script of an address whose payload is a 20-byte hash. -/
theorem addressToOutputScript_hash {MsgTx Tx : Type} (lib : Lib MsgTx)
    (p : ZettelkastenParser MsgTx Tx) (a : String) (da : Address) (h : List UInt8)
    (hlen : h.length = 20) (hda : lib.DecodeAddress a p.Params = .ok da)
    (hpay : da.ScriptAddress = h) :
    p.addressToOutputScript lib a = .ok ([0x14] ++ h ++ [0xac]) :=
  (GetAddrDescFromAddress_eq_iff lib p a h hlen).mpr ⟨da, hda, hpay⟩

/-- C11 (amended): for a script `s` of 22 bytes whose address the codec decodes
back to the hash `s[1:21]`, `addressToOutputScript` of that address is
`0x14 ++ s[1:21] ++ 0xac`, a script of 22 bytes again, and it is `s` itself
exactly when `s` begins with `0x14` and ends with `0xac`. -/
theorem reencode_compact {MsgTx Tx : Type} (lib : Lib MsgTx)
    (p : ZettelkastenParser MsgTx Tx) (s : List UInt8) (hlen : s.length = 22)
    (hcodec : ∃ da,
      lib.DecodeAddress (lib.CheckEncode (slice s 1 21) p.Params.PubKeyHashAddrID) p.Params
        = .ok da ∧ da.ScriptAddress = slice s 1 21) :
    p.outputScriptToAddresses lib s
      = ([lib.CheckEncode (slice s 1 21) p.Params.PubKeyHashAddrID], true, none) ∧
    p.addressToOutputScript lib (lib.CheckEncode (slice s 1 21) p.Params.PubKeyHashAddrID)
      = .ok ([0x14] ++ slice s 1 21 ++ [0xac]) ∧
    ([0x14] ++ slice s 1 21 ++ [0xac]).length = 22 ∧
    ([0x14] ++ slice s 1 21 ++ [0xac] = s ↔ s[0]? = some 0x14 ∧ s[21]? = some 0xac) := by
  have h20 : (slice s 1 21).length = 20 := by rw [slice_length s 1 21 (by omega)]
  obtain ⟨da, hda, hpay⟩ := hcodec
  refine ⟨outputScriptToAddresses_fast lib p s hlen,
    addressToOutputScript_hash lib p _ da _ h20 hda hpay, by simp [h20], ?_⟩
  obtain ⟨first, last, hs, h0, h21⟩ := script22_eq s hlen
  rw [h0, h21]
  generalize slice s 1 21 = m at hs ⊢
  constructor
  · intro heq
    have hboth : [0x14] ++ m ++ [0xac] = [first] ++ m ++ [last] := heq.trans hs
    have hc := List.cons.inj hboth
    have hl : [(0xac : UInt8)] = [last] := List.append_cancel_left hc.2
    exact ⟨by rw [← hc.1], by rw [← (List.cons.inj hl).1]⟩
  · rintro ⟨hf, hl⟩
    have hf1 : first = 0x14 := (Option.some.inj hf)
    have hl1 : last = 0xac := (Option.some.inj hl)
    rw [hf1, hl1] at hs
    exact hs.symm

/-! ## The claims on the test fixtures -/

set_option maxRecDepth 1000000
set_option maxHeartbeats 4000000

/-- The sample block parses to the sample result. -/
theorem sample_parse : ParseBlock stdLib mainParser sampleBlock = .ok sampleParsed := by
  decide

theorem ParseBlock_size_witness :
    ParseBlock stdLib mainParser sampleBlock = .ok sampleParsed ∧
      sampleParsed.Size = sampleBlock.length :=
  ⟨sample_parse, ParseBlock_size stdLib mainParser sampleBlock sampleParsed sample_parse⟩

theorem ParseBlock_consumes_181_witness :
    readHeader sampleBlock = .ok (headerOf sampleBlock, { s := sampleBlock, i := 181 }) ∧
    (181 = 4 + 32 + 32 + 8 + 4 + 4 + 32 + 65 ∧
      ({ s := sampleBlock, i := 181 } : Reader).remaining = sampleBlock.drop 181) ∧
    (readHeader (sampleBlock.set 180 0xff)).map Prod.fst
      = (readHeader sampleBlock).map Prod.fst :=
  have hok : readHeader sampleBlock = .ok (headerOf sampleBlock, { s := sampleBlock, i := 181 }) :=
    by decide
  have h := ParseBlock_consumes_181 stdLib mainParser sampleBlock
  ⟨hok, ⟨(h.1 _ _ hok).2.1, (h.1 _ _ hok).2.2.2⟩, h.2.2 180 0xff (by decide)⟩

theorem ParseBlock_truncated_witness :
    (∃ e, ParseBlock stdLib mainParser (sampleBlock.take 50) = .error e ∧ e.isTruncated = true) ∧
    stdLib.DecodeTransactions [] 0 .WitnessEncoding = .error .EOF ∧
    (∃ e, ParseBlock stdLib mainParser (sampleBlock.take 100) = .error e ∧
      e.isTruncated = true) :=
  have hdec : stdLib.DecodeTransactions [] 0 .WitnessEncoding = .error .EOF := by decide
  ⟨(ParseBlock_truncated stdLib mainParser sampleBlock 50 (by decide)).1 (by decide), hdec,
    (ParseBlock_truncated stdLib mainParser sampleBlock 100 (by decide)).2.2 ⟨.EOF, hdec, rfl⟩⟩

theorem ParseBlock_txs_witness :
    ParseBlock stdLib mainParser sampleBlock = .ok sampleParsed ∧
    ∃ transactions,
      stdLib.DecodeTransactions (sampleBlock.drop 181) 0 .WitnessEncoding = .ok transactions ∧
      sampleParsed.Txs.length = transactions.length ∧
      ∀ i : Nat, sampleParsed.Txs[i]?
        = (transactions[i]?).map (fun t => mainParser.TxFromMsgTx t false) :=
  ⟨sample_parse, ParseBlock_txs stdLib mainParser sampleBlock sampleParsed sample_parse⟩

theorem ParseBlock_time_witness :
    ParseBlock stdLib mainParser sampleBlock = .ok sampleParsed ∧
    leUint (slice sampleBlock 68 76) = 1529535924 ∧
    sampleParsed.Time = 1529535924 :=
  have ht : leUint (slice sampleBlock 68 76) = 1529535924 := by decide
  ⟨sample_parse, ht, by
    have h := (ParseBlock_time stdLib mainParser sampleBlock sampleParsed sample_parse).2.2.2.1
    rw [ht] at h
    exact h (by decide)⟩

/-- The address of the first test output decodes to the public-key-hash
address of the sample hash. -/
theorem sample_decode_pkh :
    stdLib.DecodeAddress "Zi7M83zBd9Z9busnBxr6zpZu3BokGjY5od" mainParser.Params
      = .ok (.PubKeyHash { hash := ⟨sampleHash, by decide⟩, netID := [81] }) := by
  decide

/-- The script-hash address of the sample hash on main decodes to it. -/
theorem sample_decode_sh :
    stdLib.DecodeAddress "38RWHoLHfSLZSyHCL5Xt9Ht7CrE4DsYwTj" mainParser.Params
      = .ok (.ScriptHash { hash := ⟨sampleHash, by decide⟩, netID := [5] }) := by
  decide

/-- An address with a wrong last character fails the checksum. -/
theorem sample_decode_bad :
    stdLib.DecodeAddress "Zi7M83zBd9Z9busnBxr6zpZu3BokGjY5oe" mainParser.Params
      = .error (.other "checksum mismatch") := by
  decide

theorem outputScriptToAddresses_len22_witness :
    (hexDecode "149f7db318cb93848108d3d6f91ce4517db50d5dd2ac").length = 22 ∧
    mainParser.outputScriptToAddresses stdLib
        (hexDecode "149f7db318cb93848108d3d6f91ce4517db50d5dd2ac")
      = (["ZqvAn4MEHxqHgk8WHHTm6jVxhRAX5Ag6wY"], true, none) := by
  refine ⟨by decide, ?_⟩
  obtain ⟨a, _, _, _, _, hres, henc⟩ := outputScriptToAddresses_len22 stdLib mainParser
    (hexDecode "149f7db318cb93848108d3d6f91ce4517db50d5dd2ac") (by decide)
  rw [hres, henc]
  decide

theorem outputScriptToAddresses_delegates_witness :
    (hexDecode "76a9149f7db318cb93848108d3d6f91ce4517db50d5dd288ac").length ≠ 22 ∧
    mainParser.outputScriptToAddresses stdLib
        (hexDecode "76a9149f7db318cb93848108d3d6f91ce4517db50d5dd288ac")
      = standardResolver MainNetParams
        (hexDecode "76a9149f7db318cb93848108d3d6f91ce4517db50d5dd288ac") :=
  ⟨by decide, (outputScriptToAddresses_delegates stdLib (stdBitcoinParser MainNetParams)
    (hexDecode "76a9149f7db318cb93848108d3d6f91ce4517db50d5dd288ac") (by decide)).2.1⟩

theorem addressToOutputScript_framing_witness :
    mainParser.addressToOutputScript stdLib "Zi7M83zBd9Z9busnBxr6zpZu3BokGjY5od"
      = .ok (hexDecode "1449d9e77c83f75478027ee98e8b8409e3e0a02466ac") ∧
    mainParser.addressToOutputScript stdLib "Zi7M83zBd9Z9busnBxr6zpZu3BokGjY5od"
      = mainParser.addressToOutputScript stdLib "38RWHoLHfSLZSyHCL5Xt9Ht7CrE4DsYwTj" := by
  have h := addressToOutputScript_framing stdLib mainParser
  refine ⟨?_, (h.2 _ _ _ _ sample_decode_pkh sample_decode_sh rfl).1⟩
  rw [(h.1 _ _ sample_decode_pkh).2.2.1]
  decide

theorem addressToOutputScript_error_iff_witness :
    (∃ script, mainParser.addressToOutputScript stdLib "Zi7M83zBd9Z9busnBxr6zpZu3BokGjY5od"
      = .ok script) ∧
    mainParser.addressToOutputScript stdLib "Zi7M83zBd9Z9busnBxr6zpZu3BokGjY5oe"
      = .error (.other "checksum mismatch") :=
  ⟨((addressToOutputScript_error_iff stdLib mainParser
      "Zi7M83zBd9Z9busnBxr6zpZu3BokGjY5od").2.1 _ sample_decode_pkh).2,
    (addressToOutputScript_error_iff stdLib mainParser
      "Zi7M83zBd9Z9busnBxr6zpZu3BokGjY5oe").2.2 _ sample_decode_bad⟩

theorem GetChainParams_idempotent_witness :
    GetChainParams Registry.empty "main"
      = (.ok .MainNetParams,
         { registeredNets := [TestnetMagic, MainnetMagic],
           pubKeyHashAddrIDs := [[111], [81]],
           scriptHashAddrIDs := [[196], [5]],
           registerCalls := 2 }) ∧
    GetChainParams
        { registeredNets := [TestnetMagic, MainnetMagic],
          pubKeyHashAddrIDs := [[111], [81]],
          scriptHashAddrIDs := [[196], [5]],
          registerCalls := 2 } "test"
      = (.ok .TestNetParams,
         { registeredNets := [TestnetMagic, MainnetMagic],
           pubKeyHashAddrIDs := [[111], [81]],
           scriptHashAddrIDs := [[196], [5]],
           registerCalls := 2 }) :=
  have h : GetChainParams Registry.empty "main"
      = (.ok .MainNetParams,
         { registeredNets := [TestnetMagic, MainnetMagic],
           pubKeyHashAddrIDs := [[111], [81]],
           scriptHashAddrIDs := [[196], [5]],
           registerCalls := 2 }) := by decide
  ⟨h, (GetChainParams_idempotent Registry.empty "main" .MainNetParams _ h).1 "test"⟩

theorem ParseBlock_short_counterexample :
    (sampleBlock.take 100).length = 100 ∧
    readHeader (sampleBlock.take 100)
      = .ok (headerOf sampleBlock, { s := sampleBlock.take 100, i := 181 }) ∧
    ParseBlock stdLib mainParser (sampleBlock.take 100) = .error .EOF ∧
    ParseBlock lenientLib mainParser (sampleBlock.take 100)
      = .ok { Size := 100, Time := 1529535924, Txs := [] } := by
  decide

theorem ParseBlock_short_cases_witness :
    (∃ e, readHeader (sampleBlock.take 50) = .error e ∧ e.isTruncated = true ∧
      ParseBlock lenientLib mainParser (sampleBlock.take 50) = .error e ∧
      ParseBlock stdLib mainParser (sampleBlock.take 50) = .error e) ∧
    ParseBlock stdLib mainParser (sampleBlock.take 100) = .error .EOF ∧
    (∃ blk, ParseBlock lenientLib mainParser (sampleBlock.take 100) = .ok blk) := by
  obtain ⟨e, he, ht, hall⟩ :=
    (ParseBlock_short_cases stdLib mainParser (sampleBlock.take 50) (by decide)).1 (by decide)
  refine ⟨⟨e, he, ht, hall lenientLib mainParser, hall stdLib mainParser⟩, ?_, ?_⟩
  · exact ((ParseBlock_short_cases stdLib mainParser (sampleBlock.take 100) (by decide)).2
      (by decide)).2.2.1 .EOF |>.mpr (by decide)
  · exact ((ParseBlock_short_cases lenientLib mainParser (sampleBlock.take 100) (by decide)).2
      (by decide)).2.2.2.mpr ⟨[], rfl⟩

theorem ParseBlock_fails_iff_witness :
    181 ≤ (sampleBlock.take 200).length ∧
    stdLib.DecodeTransactions ((sampleBlock.take 200).drop 181) 0 .WitnessEncoding
      = .error .ErrUnexpectedEOF ∧
    ParseBlock stdLib mainParser (sampleBlock.take 200) = .error .ErrUnexpectedEOF :=
  have hd : stdLib.DecodeTransactions ((sampleBlock.take 200).drop 181) 0 .WitnessEncoding
      = .error .ErrUnexpectedEOF := by decide
  ⟨by decide, hd,
    ((ParseBlock_fails_iff stdLib mainParser (sampleBlock.take 200) (by decide)).1 _).mpr hd⟩

theorem ParseBlock_depends_only_witness :
    ((sampleBlock.set 0 0x02).set 180 0xff) ≠ sampleBlock ∧
    ParseBlock stdLib mainParser ((sampleBlock.set 0 0x02).set 180 0xff) = .ok sampleParsed := by
  refine ⟨by decide, ?_⟩
  rw [← ParseBlock_depends_only stdLib mainParser sampleBlock
    ((sampleBlock.set 0 0x02).set 180 0xff) (by decide) (by decide)
    (fun i h1 h2 => by
      rw [List.getElem?_set_ne (by omega), List.getElem?_set_ne (by omega)])
    (fun i h1 => by
      rw [List.getElem?_set_ne (by omega), List.getElem?_set_ne (by omega)])]
  exact sample_parse

theorem fast_path_by_length_witness :
    mainParser.outputScriptToAddresses stdLib
        (hexDecode "6a1449d9e77c83f75478027ee98e8b8409e3e0a02400")
      = mainParser.outputScriptToAddresses stdLib
        (hexDecode "001449d9e77c83f75478027ee98e8b8409e3e0a02487") ∧
    mainParser.outputScriptToAddresses stdLib
        (hexDecode "6a1449d9e77c83f75478027ee98e8b8409e3e0a02400")
      = (NewZettelkastenParser stdLib
          { stdBitcoinParser MainNetParams with
            OutputScriptToAddressesFunc := fun _ => ([], false, some .EOF) }).outputScriptToAddresses
        stdLib (hexDecode "141449d9e77c83f75478027ee98e8b8409e3e0a024ac") :=
  ⟨(fast_path_by_length stdLib mainParser mainParser
      (hexDecode "6a1449d9e77c83f75478027ee98e8b8409e3e0a02400")
      (hexDecode "001449d9e77c83f75478027ee98e8b8409e3e0a02487")
      (by decide) (by decide) (by decide) rfl).1,
    (fast_path_by_length stdLib mainParser _
      (hexDecode "6a1449d9e77c83f75478027ee98e8b8409e3e0a02400")
      (hexDecode "141449d9e77c83f75478027ee98e8b8409e3e0a024ac")
      (by decide) (by decide) (by decide) rfl).1⟩

theorem reencode_counterexample :
    (hexDecode "14ac39d30c739f8176fba2c6f4c00ba56f5d34bf5bac").length = 22 ∧
    mainParser.outputScriptToAddresses stdLib
        (hexDecode "14ac39d30c739f8176fba2c6f4c00ba56f5d34bf5bac")
      = (["Zs5WFW3aysAT1adwftRiWNQcvzEnDrcTSX"], true, none) ∧
    mainParser.addressToOutputScript stdLib "Zs5WFW3aysAT1adwftRiWNQcvzEnDrcTSX"
      = .ok (hexDecode "14ac39d30c739f8176fba2c6f4c00ba56f5d34bf5bac") := by
  decide

theorem reencode_compact_witness :
    mainParser.addressToOutputScript stdLib
        (stdLib.CheckEncode
          (slice (hexDecode "1405dcd5cf03a945d52f79faaa093759a4685eb690ac") 1 21)
          mainParser.Params.PubKeyHashAddrID)
      = .ok (hexDecode "1405dcd5cf03a945d52f79faaa093759a4685eb690ac") ∧
    mainParser.addressToOutputScript stdLib
        (stdLib.CheckEncode
          (slice (hexDecode "6a1405dcd5cf03a945d52f79faaa093759a4685eb600") 1 21)
          mainParser.Params.PubKeyHashAddrID)
      ≠ .ok (hexDecode "6a1405dcd5cf03a945d52f79faaa093759a4685eb600") := by
  have h1 := reencode_compact stdLib mainParser
    (hexDecode "1405dcd5cf03a945d52f79faaa093759a4685eb690ac") (by decide)
    ⟨_, stdLib_decode_encode_main _ (by decide), rfl⟩
  have h2 := reencode_compact stdLib mainParser
    (hexDecode "6a1405dcd5cf03a945d52f79faaa093759a4685eb600") (by decide)
    ⟨_, stdLib_decode_encode_main _ (by decide), rfl⟩
  constructor
  · rw [h1.2.1]
    exact congrArg Except.ok (h1.2.2.2.mpr (by decide))
  · rw [h2.2.1]
    intro heq
    have := h2.2.2.2.mp (Except.ok.inj heq)
    exact absurd this (by decide)

end Zettelkasten
